import Mathlib

/-!
# devtron-labs/jenkins-plugin: trigger-and-observe protocol

A shallow embedding of `main.go`: the trigger-parameter resolver
(`getTriggerApiInputParams`), the two observer loops (`pollBuildStatus`,
`printBuildLogs`, with `isTerminalStatus`) and the trigger branch of `main`.

* Go strings are modelled as lists of characters.
* A Go `map[string]string` is modelled as an association list with one pair per
  key; the order of the list stands for the (unspecified) order in which `range`
  visits the map, so a statement proved for every list holds for every visiting
  order.
* The calls into libraries are modelled next to the program.  `strings.Trim`,
  `strings.Split`, `json.Unmarshal` into a `map[string]string` and `fmt.Printf`
  with a format and no operand are defined as functions, after the documented
  behaviour of the Go standard library; `getTriggerApiInputParams` takes the
  decoder as a parameter, so that what is proved for every decoder does not
  depend on the model of `encoding/json`.
* The Jenkins server and the deadline are answers given to the program: the
  `n`-th readiness of `ctx.Done()`, the `n`-th poll, the `n`-th console response.
  The loops are run for a number of passes (`fuel`), and report whether they have
  returned; the actions of a run are recorded in order as a list of `Event`s.
-/

namespace JenkinsPlugin

/-- Go `string`, as the list of its characters. -/
abbrev Str := List Char

/-! ## Library functions used by the program -/

/-- Go `strings.TrimLeft(s, " ")`: drop the leading space characters. -/
def trimLeftSpace : Str → Str
  | [] => []
  | c :: cs => if c = ' ' then trimLeftSpace cs else c :: cs

/-- Go `strings.Trim(s, " ")`: drop the space characters (U+0020) at both ends. -/
def stringsTrim (s : Str) : Str :=
  (trimLeftSpace (trimLeftSpace s).reverse).reverse

/-- Go `strings.Split(s, sep)` for a one-character separator: the pieces of `s`
between the occurrences of `sep`; never empty (`Split("", sep)` is `[""]`). -/
def stringsSplit (s : Str) (sep : Char) : List Str :=
  match s with
  | [] => [[]]
  | c :: cs =>
    if c = sep then [] :: stringsSplit cs sep
    else
      match stringsSplit cs sep with
      | [] => [[c]]
      | p :: ps => (c :: p) :: ps

/-! ## Go maps -/

/-- Go `map[string]string`. -/
abbrev GoMap := List (Str × Str)

/-- Map lookup `m[k]` in its two-valued form `v, ok := m[k]`. -/
def mapGet : GoMap → Str → Option Str
  | [], _ => none
  | (k', v') :: m, k => if k' = k then some v' else mapGet m k

/-- Map assignment `m[k] = v`: overwrite the entry of `k`, or add one. -/
def mapSet : GoMap → Str → Str → GoMap
  | [], k, v => [(k, v)]
  | (k', v') :: m, k, v => if k' = k then (k, v) :: m else (k', v') :: mapSet m k v

/-! ## A model of `encoding/json` decoding into a `map[string]string` -/

/-- The JSON values. -/
inductive JValue where
  | null
  | bool (b : Bool)
  | number (literal : Str)
  | string (s : Str)
  | array (elems : List JValue)
  | object (members : List (Str × JValue))

/-- The error of `json.Unmarshal`: a syntax error, or the type error that names
the kind of JSON value which did not fit the Go type. -/
inductive JsonError where
  | syntaxError
  | unmarshalTypeError (value : Str)
  deriving DecidableEq, Repr

/-- JSON insignificant whitespace. -/
def isJsonSpace (c : Char) : Bool :=
  c = ' ' || c = '\t' || c = '\r' || c = '\n'

def skipSpace : Str → Str
  | [] => []
  | c :: cs => if isJsonSpace c then skipSpace cs else c :: cs

def isDigit (c : Char) : Bool := '0' ≤ c && c ≤ '9'

def hexValue (c : Char) : Option Nat :=
  if '0' ≤ c && c ≤ '9' then some (c.toNat - '0'.toNat)
  else if 'a' ≤ c && c ≤ 'f' then some (c.toNat - 'a'.toNat + 10)
  else if 'A' ≤ c && c ≤ 'F' then some (c.toNat - 'A'.toNat + 10)
  else none

/-- Four hexadecimal digits, as after `\u`. -/
def getu4 : Str → Option (Nat × Str)
  | a :: b :: c :: d :: rest =>
    match hexValue a, hexValue b, hexValue c, hexValue d with
    | some x, some y, some z, some w => some (x * 4096 + y * 256 + z * 16 + w, rest)
    | _, _, _, _ => none
  | _ => none

/-- The Unicode replacement character. -/
def replacementChar : Char := Char.ofNat 0xFFFD

/-- The body of a JSON string, after its opening quote: the decoded string and
what follows the closing quote.  A `\u` escape that is half of a surrogate pair
is joined with the other half when that follows, and replaced by U+FFFD when it
does not. -/
def parseStringBody : Nat → Str → Option (Str × Str)
  | 0, _ => none
  | _ + 1, [] => none
  | fuel + 1, c :: cs =>
    if c = '"' then some ([], cs)
    else if c = '\\' then
      match cs with
      | [] => none
      | e :: rest =>
        let plain (d : Char) : Option (Str × Str) :=
          (parseStringBody fuel rest).map (fun r => (d :: r.1, r.2))
        if e = '"' then plain '"'
        else if e = '\\' then plain '\\'
        else if e = '/' then plain '/'
        else if e = 'b' then plain (Char.ofNat 8)
        else if e = 'f' then plain (Char.ofNat 12)
        else if e = 'n' then plain '\n'
        else if e = 'r' then plain '\r'
        else if e = 't' then plain '\t'
        else if e = 'u' then
          match getu4 rest with
          | none => none
          | some (rr, rest1) =>
            if 0xD800 ≤ rr ∧ rr < 0xE000 then
              let low : Option (Nat × Str) :=
                match rest1 with
                | '\\' :: 'u' :: rest2 => getu4 rest2
                | _ => none
              match low with
              | some (rr1, rest3) =>
                if rr < 0xDC00 ∧ 0xDC00 ≤ rr1 ∧ rr1 < 0xE000 then
                  (parseStringBody fuel rest3).map (fun r =>
                    (Char.ofNat ((rr - 0xD800) * 1024 + (rr1 - 0xDC00) + 0x10000) :: r.1, r.2))
                else
                  (parseStringBody fuel rest1).map (fun r => (replacementChar :: r.1, r.2))
              | none =>
                (parseStringBody fuel rest1).map (fun r => (replacementChar :: r.1, r.2))
            else
              (parseStringBody fuel rest1).map (fun r => (Char.ofNat rr :: r.1, r.2))
        else none
    else if c.toNat < 0x20 then none
    else (parseStringBody fuel cs).map (fun r => (c :: r.1, r.2))

/-- The longest run of decimal digits at the front, and the rest. -/
def spanDigits : Str → Str × Str
  | [] => ([], [])
  | c :: cs =>
    if isDigit c then ((c :: (spanDigits cs).1), (spanDigits cs).2) else ([], c :: cs)

/-- A JSON number literal at the front: `-? (0 | [1-9][0-9]*) (. [0-9]+)? ([eE] [+-]? [0-9]+)?`. -/
def parseNumber (cs : Str) : Option (Str × Str) :=
  let (sign, cs1) : Str × Str :=
    match cs with
    | '-' :: r => (['-'], r)
    | _ => ([], cs)
  let intPart : Option (Str × Str) :=
    match cs1 with
    | [] => none
    | c :: r =>
      if c = '0' then some (['0'], r)
      else if isDigit c then some (c :: (spanDigits r).1, (spanDigits r).2)
      else none
  match intPart with
  | none => none
  | some (ip, cs2) =>
    let fracPart : Option (Str × Str) :=
      match cs2 with
      | '.' :: r =>
        if (spanDigits r).1 = [] then none else some ('.' :: (spanDigits r).1, (spanDigits r).2)
      | _ => some ([], cs2)
    match fracPart with
    | none => none
    | some (fp, cs3) =>
      let expPart : Option (Str × Str) :=
        match cs3 with
        | e :: r =>
          if e = 'e' ∨ e = 'E' then
            let (sg, r1) : Str × Str :=
              match r with
              | s :: r0 => if s = '+' ∨ s = '-' then ([s], r0) else ([], r)
              | [] => ([], [])
            if (spanDigits r1).1 = [] then none
            else some (e :: sg ++ (spanDigits r1).1, (spanDigits r1).2)
          else some ([], cs3)
        | [] => some ([], [])
      match expPart with
      | none => none
      | some (ep, cs4) => some (sign ++ ip ++ fp ++ ep, cs4)

/-- The literal `word` at the front. -/
def parseLiteral (word : Str) (cs : Str) : Option Str :=
  if cs.take word.length = word then some (cs.drop word.length) else none

/-- The limit of the decoder on nested arrays and objects. -/
def maxNestingDepth : Nat := 10000

/-- The elements of an array after the first one: `, value` repeated, then `]`. -/
def parseElemsTail (parseValue : Str → Option (JValue × Str)) :
    Nat → Str → Option (List JValue × Str)
  | 0, _ => none
  | fuel + 1, cs =>
    match skipSpace cs with
    | ']' :: rest => some ([], rest)
    | ',' :: rest =>
      match parseValue rest with
      | none => none
      | some (v, rest1) =>
        (parseElemsTail parseValue fuel rest1).map (fun r => (v :: r.1, r.2))
    | _ => none

/-- One member `"key" : value` of an object. -/
def parseMember (parseValue : Str → Option (JValue × Str)) (cs : Str) :
    Option ((Str × JValue) × Str) :=
  match skipSpace cs with
  | '"' :: rest =>
    match parseStringBody (rest.length + 1) rest with
    | none => none
    | some (key, rest1) =>
      match skipSpace rest1 with
      | ':' :: rest2 =>
        match parseValue rest2 with
        | none => none
        | some (v, rest3) => some ((key, v), rest3)
      | _ => none
  | _ => none

/-- The members of an object after the first one: `, member` repeated, then `}`. -/
def parseMembersTail (parseValue : Str → Option (JValue × Str)) :
    Nat → Str → Option (List (Str × JValue) × Str)
  | 0, _ => none
  | fuel + 1, cs =>
    match skipSpace cs with
    | '}' :: rest => some ([], rest)
    | ',' :: rest =>
      match parseMember parseValue rest with
      | none => none
      | some (kv, rest1) =>
        (parseMembersTail parseValue fuel rest1).map (fun r => (kv :: r.1, r.2))
    | _ => none

/-- One JSON value at the front, after optional whitespace; `nesting` counts the
arrays and objects that are open around it. -/
def parseValue : Nat → Nat → Str → Option (JValue × Str)
  | 0, _, _ => none
  | fuel + 1, nesting, cs =>
    match skipSpace cs with
    | [] => none
    | c :: rest =>
      if c = '{' then
        if nesting + 1 > maxNestingDepth then none
        else
          match skipSpace rest with
          | '}' :: rest1 => some (JValue.object [], rest1)
          | _ =>
            match parseMember (parseValue fuel (nesting + 1)) rest with
            | none => none
            | some (kv, rest1) =>
              (parseMembersTail (parseValue fuel (nesting + 1)) fuel rest1).map
                (fun r => (JValue.object (kv :: r.1), r.2))
      else if c = '[' then
        if nesting + 1 > maxNestingDepth then none
        else
          match skipSpace rest with
          | ']' :: rest1 => some (JValue.array [], rest1)
          | _ =>
            match parseValue fuel (nesting + 1) rest with
            | none => none
            | some (v, rest1) =>
              (parseElemsTail (parseValue fuel (nesting + 1)) fuel rest1).map
                (fun r => (JValue.array (v :: r.1), r.2))
      else if c = '"' then
        (parseStringBody (rest.length + 1) rest).map (fun r => (JValue.string r.1, r.2))
      else if c = 't' then (parseLiteral "true".toList (c :: rest)).map (fun r => (JValue.bool true, r))
      else if c = 'f' then (parseLiteral "false".toList (c :: rest)).map (fun r => (JValue.bool false, r))
      else if c = 'n' then (parseLiteral "null".toList (c :: rest)).map (fun r => (JValue.null, r))
      else (parseNumber (c :: rest)).map (fun r => (JValue.number r.1, r.2))

/-- The whole input as one JSON value, surrounded by optional whitespace; `none`
on a syntax error. -/
def parseJSON (data : Str) : Option JValue :=
  match parseValue (data.length + 1) 0 data with
  | none => none
  | some (v, rest) => if skipSpace rest = [] then some v else none

/-- The string stored for one member value whose target is a Go `string`, and the
type error it raises: a JSON string is stored decoded, `null` leaves the zero
value, and any other value leaves the zero value and raises a type error. -/
def decodeElem : JValue → Str × Option JsonError
  | JValue.string s => (s, none)
  | JValue.null => ([], none)
  | JValue.bool _ => ([], some (JsonError.unmarshalTypeError "bool".toList))
  | JValue.number _ => ([], some (JsonError.unmarshalTypeError "number".toList))
  | JValue.array _ => ([], some (JsonError.unmarshalTypeError "array".toList))
  | JValue.object _ => ([], some (JsonError.unmarshalTypeError "object".toList))

/-- Decoding of the members of an object into the map, in order: every member
is stored under its key, and the earliest type error is kept. -/
def decodeMembers : List (Str × JValue) → GoMap → Option JsonError → GoMap × Option JsonError
  | [], m, saved => (m, saved)
  | (key, v) :: rest, m, saved =>
    decodeMembers rest (mapSet m key (decodeElem v).1)
      (match saved with
       | some e => some e
       | none => (decodeElem v).2)

/-- A model of `json.Unmarshal(data, &m)` for `m` of type `map[string]string`:
the map after the call and the error returned.  A syntax error is found before
anything is stored; a value of the wrong type is reported at the end, after the
rest has been decoded. -/
def jsonUnmarshal (data : Str) (m : GoMap) : GoMap × Option JsonError :=
  match parseJSON data with
  | none => (m, some JsonError.syntaxError)
  | some JValue.null => ([], none)
  | some (JValue.object members) => decodeMembers members m none
  | some (JValue.bool _) => (m, some (JsonError.unmarshalTypeError "bool".toList))
  | some (JValue.number _) => (m, some (JsonError.unmarshalTypeError "number".toList))
  | some (JValue.string _) => (m, some (JsonError.unmarshalTypeError "string".toList))
  | some (JValue.array _) => (m, some (JsonError.unmarshalTypeError "array".toList))

/-! ## Constants of `main.go` -/

def SUCCESS : Str := "SUCCESS".toList

def FAILURE : Str := "FAILURE".toList

def ABORTED : Str := "ABORTED".toList

def GIT_MATERIAL_REPO : Str := "GIT_MATERIAL_REPO".toList

def GIT_MATERIAL_CHECKOUT_PATH : Str := "GIT_MATERIAL_CHECKOUT_PATH".toList

def GIT_MATERIAL_BRANCH : Str := "GIT_MATERIAL_BRANCH".toList

def GIT_MATERIAL_COMMIT_HASH : Str := "GIT_MATERIAL_COMMIT_HASH".toList

/-- The constant `depth`, passed to the status poll. -/
def depth : Int := 1

def TIMED_OUT_ERROR : Str := "timed-out".toList

/-- The process configuration `JenkinsPluginInputVariables`. -/
structure JenkinsPluginInputVariables where
  Url : Str
  Username : Str
  Password : Str
  JobName : Str
  JobTriggerParams : Str
  JenkinsPluginTimeout : Int
  BuildStatusPollDuration : Int
  GitMaterialRequest : Str

/-! ## Parameter resolver -/

/-- The placeholder map `gitMaterialDetailsMap` built from the fields of the
first repository: filled only when there are exactly four fields. -/
def gitMaterialDetailsMapOf (gitMaterialDetails : List Str) : GoMap :=
  if gitMaterialDetails.length = 4 then
    mapSet (mapSet (mapSet (mapSet []
      GIT_MATERIAL_REPO (gitMaterialDetails.getD 0 []))
      GIT_MATERIAL_CHECKOUT_PATH (gitMaterialDetails.getD 1 []))
      GIT_MATERIAL_BRANCH (gitMaterialDetails.getD 2 []))
      GIT_MATERIAL_COMMIT_HASH (gitMaterialDetails.getD 3 [])
  else []

/-- One pass of the body of the `range` loop: trim the key and the value, look
the trimmed value up in the placeholder map, and store the result. -/
def resolveEntry (gitMaterialDetailsMap : GoMap) (resolved : GoMap) (kv : Str × Str) : GoMap :=
  let k := stringsTrim kv.1
  let v := stringsTrim kv.2
  match mapGet gitMaterialDetailsMap v with
  | some variableValue => mapSet resolved k variableValue
  | none => mapSet resolved k v

/-- The map `inputParamsMap` after the decoding step: empty when
`JobTriggerParams` is empty, and otherwise what `json.Unmarshal` left in the
fresh map, whatever error it returned. -/
def inputParamsMapOf {ε : Type} (unmarshal : Str → GoMap → GoMap × Option ε)
    (jenkinsRequest : JenkinsPluginInputVariables) : GoMap :=
  if jenkinsRequest.JobTriggerParams.length > 0 then
    (unmarshal jenkinsRequest.JobTriggerParams []).1
  else []

/-- The function `getTriggerApiInputParams`.  `unmarshal data m` stands for
`json.Unmarshal(data, &m)`: it gives the contents of the map after the call and
the error returned, which the program discards.  The index `[0]` always exists,
as `strings.Split` never returns an empty slice. -/
def getTriggerApiInputParams {ε : Type} (unmarshal : Str → GoMap → GoMap × Option ε)
    (jenkinsRequest : JenkinsPluginInputVariables) : GoMap :=
  let inputParamsMap : GoMap := inputParamsMapOf unmarshal jenkinsRequest
  let gitMaterialRequest := jenkinsRequest.GitMaterialRequest
  let gitMaterialDetailsForFirstRepo := stringsSplit gitMaterialRequest '|'
  let gitMaterialDetails := stringsSplit (gitMaterialDetailsForFirstRepo.getD 0 []) ','
  let gitMaterialDetailsMap := gitMaterialDetailsMapOf gitMaterialDetails
  inputParamsMap.foldl (resolveEntry gitMaterialDetailsMap) []

/-! ## A model of `fmt.Printf` called with a format and no operand -/

/-- The loop of `parsenum`: the number read so far, whether a digit was seen, and
what is left; a number beyond 10^6 gives up and skips to the end. -/
def parsenumLoop : Str → Nat → Bool → Nat × Bool × Str
  | [], num, isnum => (num, isnum, [])
  | c :: cs, num, isnum =>
    if isDigit c then
      if num > 1000000 then (0, false, [])
      else parsenumLoop cs (num * 10 + (c.toNat - '0'.toNat)) true
    else (num, isnum, c :: cs)

/-- The function `parsenum` of package `fmt` on the text up to its end. -/
def parsenum (s : Str) : Nat × Bool × Str := parsenumLoop s 0 false

/-- The function `parseArgNumber` of package `fmt` on a text that starts with `[`:
the number of characters of the bracket expression, and whether it is a
well-formed `[n]`. -/
def parseArgNumber (format : Str) : Nat × Bool :=
  if format.length < 3 then (1, false)
  else
    let inner := (format.drop 1).takeWhile (fun c => c ≠ ']')
    if (format.drop 1).length = inner.length then (1, false)
    else
      let r := parsenum inner
      if r.2.1 = false ∨ r.2.2 ≠ [] then (inner.length + 2, false)
      else (inner.length + 2, true)

/-- The method `argNumber` of package `fmt` when there is no operand: an explicit
argument index can never be in range, so it always spoils the directive.
Result: the text left, whether an index was found, and `goodArgNum`. -/
def argNumber (format : Str) (goodArgNum : Bool) : Str × Bool × Bool :=
  match format with
  | '[' :: _ => (format.drop (parseArgNumber format).1, (parseArgNumber format).2, false)
  | _ => (format, false, goodArgNum)

/-- The flag characters after `%`. -/
def dropFlags : Str → Str
  | [] => []
  | c :: cs =>
    if c = '#' ∨ c = '0' ∨ c = '+' ∨ c = '-' ∨ c = ' ' then dropFlags cs else c :: cs

/-- One directive, given the text after its `%`, when there is no operand:
the text written and the format left.  A `.` opens a precision only when a
character follows it; a `.` that ends the format is taken as the verb. -/
def printfDirective (s : Str) : Str × Str :=
  let a1 := argNumber (dropFlags s) true
  -- width
  let w : Str × Str × Bool × Bool :=
    match a1.1 with
    | '*' :: r => ("%!(BADWIDTH)".toList, r, false, a1.2.2)
    | _ =>
      let n := parsenum a1.1
      ([], n.2.2, a1.2.1, a1.2.2 && !(a1.2.1 && n.2.1))
  -- precision
  let q : Str × Str × Bool × Bool :=
    match w.2.1 with
    | '.' :: c :: r =>
      let a2 := argNumber (c :: r) (w.2.2.2 && !w.2.2.1)
      match a2.1 with
      | '*' :: r2 => ("%!(BADPREC)".toList, r2, false, a2.2.2)
      | _ => ([], (parsenum a2.1).2.2, a2.2.1, a2.2.2)
    | _ => ([], w.2.1, w.2.2.1, w.2.2.2)
  let a3 : Str × Bool × Bool :=
    if q.2.2.1 then (q.2.1, q.2.2.1, q.2.2.2) else argNumber q.2.1 q.2.2.2
  match a3.1 with
  | [] => (w.1 ++ q.1 ++ "%!(NOVERB)".toList, [])
  | verb :: rest =>
    if verb = '%' then (w.1 ++ q.1 ++ ['%'], rest)
    else if a3.2.2 = false then (w.1 ++ q.1 ++ "%!".toList ++ [verb] ++ "(BADINDEX)".toList, rest)
    else (w.1 ++ q.1 ++ "%!".toList ++ [verb] ++ "(MISSING)".toList, rest)

/-- The loop of `doPrintf` when there is no operand. -/
def doPrintf : Nat → Str → Str
  | 0, _ => []
  | _ + 1, [] => []
  | fuel + 1, c :: cs =>
    if c = '%' then (printfDirective cs).1 ++ doPrintf fuel (printfDirective cs).2
    else c :: doPrintf fuel cs

/-- The text that `fmt.Printf(format)`, called with no operand, writes. -/
def fmtPrintf (format : Str) : Str := doPrintf (format.length + 1) format

/-- The function `int64(x)`: wrap-around to 64 bits, two's complement. -/
def wrapInt64 (x : Int) : Int := (x + 2 ^ 63) % 2 ^ 64 - 2 ^ 63

/-! ## Observer loops -/

/-- The observable actions of the program, in the order they happen. -/
inductive Event where
  /-- Text written to the standard output. -/
  | write (text : Str)
  /-- A call `time.Sleep(d)`, with `d` in nanoseconds. -/
  | sleep (nanoseconds : Int)
  /-- A call `build.Poll(ctx, depth)`. -/
  | poll (depth : Int)
  /-- A call `build.GetConsoleOutputFromIndex(ctx, startIndex)`. -/
  | getConsoleOutputFromIndex (startIndex : Int)
  /-- A call `jenkins.GetBuildFromQueueID(ctx, queueId)`. -/
  | getBuildFromQueueID (queueId : Int)
  deriving DecidableEq, Repr

/-- The fields of `gojenkins.BuildResponse` that the program reads. -/
structure BuildResponse where
  ID : Str
  Result : Str
  deriving DecidableEq, Repr

/-- The type `gojenkins.Build`: the address `Base` of the build on the server, and
the state `Raw` that a poll refreshes. -/
structure Build where
  Raw : BuildResponse
  Base : Str
  deriving DecidableEq, Repr

/-- The console response of `GetConsoleOutputFromIndex`. -/
structure ConsoleResponse where
  Content : Str
  Offset : Int
  HasMoreText : Bool
  deriving DecidableEq, Repr

/-- What the surroundings answer to one observer loop.
`ctxDone n`: whether `ctx.Done()` is ready at the `n`-th `select` of the loop.
`poll n b`: the build after the `n`-th `Poll` of build `b`, and the error returned.
`console base n`: the outcome of the `n`-th console request for the build at `base`. -/
structure ObserverEnv where
  ctxDone : Nat → Bool
  poll : Nat → Build → Build × Option Str
  console : Str → Nat → Except Str ConsoleResponse

/-- One pass of a loop body: go round again, or return from the function. -/
inductive Step (σ ρ : Type) where
  | next (s : σ)
  | ret (s : σ) (r : ρ)
  deriving DecidableEq

/-- A loop `for cond { body }` followed by `return after`, run for at most `fuel`
passes of the body: the actions, the last state, and the value returned
(`none` while the loop is still running). -/
def forLoop {σ ρ : Type} (cond : σ → Bool) (body : σ → List Event × Step σ ρ) (after : ρ) :
    Nat → σ → List Event × σ × Option ρ
  | fuel, s =>
    if cond s then
      match fuel with
      | 0 => ([], s, none)
      | fuel + 1 =>
        match body s with
        | (evs, Step.next s1) =>
          (evs ++ (forLoop cond body after fuel s1).1, (forLoop cond body after fuel s1).2)
        | (evs, Step.ret s1 r) => (evs, s1, some r)
    else ([], s, some after)

/-- The function `isTerminalStatus`. -/
def isTerminalStatus (buildResult : Str) : Bool :=
  if buildResult = SUCCESS then true
  else if buildResult = FAILURE then true
  else if buildResult = ABORTED then true
  else false

/-- The state of the status poller: the build, and how many `select`s and polls
it has made. -/
structure PollState where
  build : Build
  selects : Nat
  polls : Nat
  deriving DecidableEq, Repr

/-- The body of the loop of `pollBuildStatus`. -/
def pollBody (jenkinsRequest : JenkinsPluginInputVariables) (env : ObserverEnv)
    (s : PollState) : List Event × Step PollState (Option Str) :=
  if env.ctxDone s.selects then
    ([Event.write "plugin timeout occured".toList],
      Step.ret { s with selects := s.selects + 1 } (some TIMED_OUT_ERROR))
  else
    let buildStatusPollDuration := wrapInt64 (60000000000 * jenkinsRequest.BuildStatusPollDuration)
    let polled := env.poll s.polls s.build
    let s1 : PollState := { build := polled.1, selects := s.selects + 1, polls := s.polls + 1 }
    match polled.2 with
    | some err =>
      ([Event.sleep buildStatusPollDuration, Event.poll depth,
        Event.write "error in polling build status".toList], Step.ret s1 (some err))
    | none =>
      ([Event.sleep buildStatusPollDuration, Event.poll depth], Step.ret s1 none)

/-- The function `pollBuildStatus`, continued from the start of a pass in state `s`. -/
def pollBuildStatusFrom (jenkinsRequest : JenkinsPluginInputVariables) (env : ObserverEnv)
    (fuel : Nat) (s : PollState) : List Event × PollState × Option (Option Str) :=
  forLoop (fun s => !isTerminalStatus s.build.Raw.Result) (pollBody jenkinsRequest env) none fuel s

/-- The function `pollBuildStatus`: the actions, the final state with the build
as the polls left it, and the error returned (`some none` is a return of `nil`). -/
def pollBuildStatus (jenkinsRequest : JenkinsPluginInputVariables) (env : ObserverEnv)
    (fuel : Nat) (build : Build) : List Event × PollState × Option (Option Str) :=
  pollBuildStatusFrom jenkinsRequest env fuel { build := build, selects := 0, polls := 0 }

/-- The state of the log streamer. -/
structure LogState where
  startIndex : Int
  hasMoreText : Bool
  selects : Nat
  fetches : Nat
  deriving DecidableEq, Repr

/-- The body of the loop of `printBuildLogs`. -/
def logBody (env : ObserverEnv) (build : Build) (s : LogState) :
    List Event × Step LogState (Option Str) :=
  if env.ctxDone s.selects then
    ([Event.write "plugin timeout occured\n".toList],
      Step.ret { s with selects := s.selects + 1 } (some TIMED_OUT_ERROR))
  else
    match env.console build.Base s.fetches with
    | Except.error err =>
      ([Event.getConsoleOutputFromIndex s.startIndex, Event.write (err ++ ['\n'])],
        Step.ret { s with selects := s.selects + 1, fetches := s.fetches + 1 } (some err))
    | Except.ok consoleResponse =>
      (Event.getConsoleOutputFromIndex s.startIndex ::
        (if consoleResponse.Content.length > 0 then
          [Event.write (fmtPrintf consoleResponse.Content)] else []),
        Step.next { startIndex := consoleResponse.Offset,
                    hasMoreText := consoleResponse.HasMoreText,
                    selects := s.selects + 1, fetches := s.fetches + 1 })

/-- The function `printBuildLogs`, continued from the start of a pass in state `s`. -/
def printBuildLogsFrom (env : ObserverEnv) (build : Build) (fuel : Nat) (s : LogState) :
    List Event × LogState × Option (Option Str) :=
  forLoop (fun s => s.hasMoreText) (logBody env build) none fuel s

/-- The function `printBuildLogs`. -/
def printBuildLogs (env : ObserverEnv) (fuel : Nat) (build : Build) :
    List Event × LogState × Option (Option Str) :=
  printBuildLogsFrom env build fuel { startIndex := 0, hasMoreText := true, selects := 0, fetches := 0 }

/-! ## The trigger branch of `main` -/

/-- How `main` goes on after the trigger call. -/
inductive Outcome where
  /-- The call `os.Exit(code)`. -/
  | exit (code : Int)
  /-- A call of `panic`. -/
  | panic (message : Str)
  /-- The build is resolved: `main` sets the deadline and launches the two observer loops. -/
  | observe (build : Build)
  deriving DecidableEq, Repr

/-- The part of `main` from the return of `jenkins.BuildJob` with `(queueId, err)` up
to the resolution of the build. -/
def mainAfterTrigger (getBuildFromQueueID : Int → Except Str Build)
    (queueId : Int) (err : Option Str) : List Event × Outcome :=
  let printed : List Event :=
    match err with
    | some e => [Event.write ("error in trigger build - err : ".toList ++ e ++ " \n".toList)]
    | none => []
  if queueId = 0 ∧ err = none then (printed, Outcome.exit 0)
  else
    match err with
    | some e => (printed, Outcome.panic e)
    | none =>
      match getBuildFromQueueID queueId with
      | Except.error e => (printed ++ [Event.getBuildFromQueueID queueId], Outcome.panic e)
      | Except.ok build =>
        (printed ++ [Event.getBuildFromQueueID queueId,
          Event.write ("Job build no -  ".toList ++ build.Raw.ID ++ ['\n'])], Outcome.observe build)

/-! ## Helpers for the statements, and sample inputs -/

/-- The value that the loop body stores for a source value `v`. -/
def resolvedValue (gitMaterialDetailsMap : GoMap) (v : Str) : Str :=
  match mapGet gitMaterialDetailsMap (stringsTrim v) with
  | some variableValue => variableValue
  | none => stringsTrim v

/-- The placeholder map that `getTriggerApiInputParams` builds for a git-material string. -/
def placeholderMapOf (gitMaterialRequest : Str) : GoMap :=
  gitMaterialDetailsMapOf (stringsSplit ((stringsSplit gitMaterialRequest '|').getD 0 []) ',')

/-- A request with the given trigger parameters and git material. -/
def requestOf (params git : String) : JenkinsPluginInputVariables :=
  { Url := [], Username := [], Password := [], JobName := "job".toList,
    JobTriggerParams := params.toList, JenkinsPluginTimeout := 30,
    BuildStatusPollDuration := 1, GitMaterialRequest := git.toList }

/-- A decoding whose resulting map is visited by `range` in the order of `m`. -/
def visitedAs (m : GoMap) : Str → GoMap → GoMap × Option JsonError :=
  fun _ _ => (m, none)

/-- Scenario A with padded value and a second repository. -/
def scenarioA : JenkinsPluginInputVariables :=
  requestOf "\x7b\"BRANCH\":\" GIT_MATERIAL_BRANCH \"\x7d" "repoA,/src,main,abc123|repoB,/lib,dev,def456"

/-- Scenario B: no git material. -/
def scenarioB : JenkinsPluginInputVariables :=
  requestOf "\x7b\"ENV\":\" prod\"\x7d" ""

/-- Two parameter names that differ only by a trailing space. -/
def collidingBranch : JenkinsPluginInputVariables :=
  requestOf "\x7b\"K\":\"GIT_MATERIAL_BRANCH\",\"K \":\"x\"\x7d" "repoA,/src,main,abc123"

/-- Two parameter names that differ only by a leading space, without git material. -/
def collidingPlain : JenkinsPluginInputVariables :=
  requestOf "\x7b\"ENV\":\"prod\",\" ENV\":\"GIT_MATERIAL_REPO\"\x7d" "repoA,/src,main"

/-- A key and a value surrounded by a tab and a newline. -/
def tabbedRequest : JenkinsPluginInputVariables :=
  requestOf "\x7b\"\\tBRANCH\":\"GIT_MATERIAL_BRANCH\\n\"\x7d" "repoA,/src,main,abc123"

/-- A key and a value surrounded by spaces. -/
def paddedRequest : JenkinsPluginInputVariables :=
  requestOf "\x7b\"  HASH \":\"   GIT_MATERIAL_COMMIT_HASH  \"\x7d" "repoA,/src,main,abc123"

/-- Two parameter names with the same trimmed form. -/
def collidingCount : JenkinsPluginInputVariables :=
  requestOf "\x7b\"a\":\"1\",\" a\":\"2\"\x7d" ""

/-- Two parameters with distinct trimmed names. -/
def twoParams : JenkinsPluginInputVariables :=
  requestOf "\x7b\"a \":\"GIT_MATERIAL_REPO\",\" b\":\" 2\"\x7d" "repoA,/src,main,abc123"

/-- A well-formed object that holds a number where a string is expected. -/
def mixedParams : JenkinsPluginInputVariables :=
  requestOf "\x7b\"a\":\"b\",\"c\":1\x7d" ""

/-- A well-formed object that holds a boolean where a string is expected. -/
def flaggedParams : JenkinsPluginInputVariables :=
  requestOf "\x7b\"x\":\" y \",\"n\":true\x7d" ""

/-- An object that is cut short. -/
def brokenParams : JenkinsPluginInputVariables :=
  requestOf "\x7b\"a\":\"b\",\"c\":" ""

/-- The start indexes of the console requests among the actions, in order. -/
def fetchOffsets : List Event → List Int
  | [] => []
  | Event.getConsoleOutputFromIndex i :: evs => i :: fetchOffsets evs
  | _ :: evs => fetchOffsets evs

/-- The texts written among the actions, in order. -/
def writes : List Event → List Str
  | [] => []
  | Event.write t :: evs => t :: writes evs
  | _ :: evs => writes evs

/-- The state of the log streamer at the start of pass `k`, when the first `k`
console requests were answered by `resp 0`, ..., `resp (k - 1)`. -/
def logStateAfter (resp : Nat → ConsoleResponse) : Nat → LogState
  | 0 => { startIndex := 0, hasMoreText := true, selects := 0, fetches := 0 }
  | k + 1 => { startIndex := (resp k).Offset, hasMoreText := (resp k).HasMoreText,
               selects := k + 1, fetches := k + 1 }

/-- The actions of a pass of the log streamer that requests from `startIndex`
and is answered by `r`. -/
def logEventsOf (r : ConsoleResponse) (startIndex : Int) : List Event :=
  Event.getConsoleOutputFromIndex startIndex ::
    (if r.Content.length > 0 then [Event.write (fmtPrintf r.Content)] else [])

/-- The actions of the first `k` passes of the log streamer. -/
def logEventsUpTo (resp : Nat → ConsoleResponse) : Nat → List Event
  | 0 => []
  | k + 1 => logEventsUpTo resp k ++ logEventsOf (resp k) (logStateAfter resp k).startIndex

/-- A build that has no result yet. -/
def freshBuild : Build :=
  { Raw := { ID := "7".toList, Result := [] }, Base := "/job/demo/7".toList }

/-- A server whose console has three chunks, the last one closing the log, and
whose build is still running at the first poll and successful at the second. -/
def demoEnv : ObserverEnv :=
  { ctxDone := fun _ => false
    poll := fun n b =>
      ({ b with Raw := { b.Raw with Result := if n = 0 then [] else SUCCESS } }, none)
    console := fun _ n =>
      if n = 0 then Except.ok { Content := "one\n".toList, Offset := 4, HasMoreText := true }
      else if n = 1 then Except.ok { Content := [], Offset := 4, HasMoreText := true }
      else Except.ok { Content := "two\n".toList, Offset := 8, HasMoreText := false } }

/-- The responses of the console of `demoEnv`. -/
def demoResp (n : Nat) : ConsoleResponse :=
  if n = 0 then { Content := "one\n".toList, Offset := 4, HasMoreText := true }
  else if n = 1 then { Content := [], Offset := 4, HasMoreText := true }
  else { Content := "two\n".toList, Offset := 8, HasMoreText := false }

/-- The server of `demoEnv` with a deadline that expires before the third pass. -/
def expiringEnv : ObserverEnv :=
  { demoEnv with ctxDone := fun n => decide (2 ≤ n) }

/-- A server whose console holds the single chunk `100%`. -/
def percentEnv : ObserverEnv :=
  { demoEnv with
    console := fun _ _ =>
      Except.ok { Content := "100%".toList, Offset := 4, HasMoreText := false } }

/-- A queue that resolves every identifier to `freshBuild`. -/
def demoQueue : Int → Except Str Build := fun _ => Except.ok freshBuild

/-! ## Lemmas on maps, trimming and splitting -/

theorem mapGet_mapSet (m : GoMap) (k v k' : Str) :
    mapGet (mapSet m k v) k' = if k = k' then some v else mapGet m k' := by
  induction m with
  | nil => simp [mapSet, mapGet]
  | cons e m ih =>
    obtain ⟨a, b⟩ := e
    by_cases h : a = k
    · subst h
      by_cases h2 : a = k' <;> simp [mapSet, mapGet, h2]
    · by_cases h2 : k = k'
      · subst h2
        simp [mapSet, mapGet, h, ih]
      · simp [mapSet, mapGet, h, ih, h2]

theorem mapSet_of_not_mem (m : GoMap) (k v : Str) (h : k ∉ m.map Prod.fst) :
    mapSet m k v = m ++ [(k, v)] := by
  induction m with
  | nil => rfl
  | cons e m ih =>
    obtain ⟨a, b⟩ := e
    simp only [List.map_cons, List.mem_cons, not_or] at h
    have ha : a ≠ k := fun hh => h.1 hh.symm
    simp [mapSet, ha, ih h.2]

theorem resolveEntry_eq (gm acc : GoMap) (kv : Str × Str) :
    resolveEntry gm acc kv = mapSet acc (stringsTrim kv.1) (resolvedValue gm kv.2) := by
  unfold resolveEntry resolvedValue
  dsimp only
  cases mapGet gm (stringsTrim kv.2) <;> rfl

theorem mapGet_foldl_of_ne (gm : GoMap) (l : List (Str × Str)) (acc : GoMap) (key : Str)
    (h : ∀ e ∈ l, stringsTrim e.1 ≠ key) :
    mapGet (l.foldl (resolveEntry gm) acc) key = mapGet acc key := by
  induction l generalizing acc with
  | nil => rfl
  | cons e l ih =>
    rw [List.foldl_cons, ih _ (fun x hx => h x (List.mem_cons_of_mem _ hx)), resolveEntry_eq,
      mapGet_mapSet, if_neg (h e (List.mem_cons_self _ _))]

theorem mapGet_foldl_of_unique (gm : GoMap) (l : List (Str × Str)) (acc : GoMap) (k v : Str)
    (hmem : (k, v) ∈ l)
    (huniq : ∀ e ∈ l, stringsTrim e.1 = stringsTrim k → e = (k, v)) :
    mapGet (l.foldl (resolveEntry gm) acc) (stringsTrim k) = some (resolvedValue gm v) := by
  induction l generalizing acc with
  | nil => cases hmem
  | cons e l ih =>
    rw [List.foldl_cons]
    by_cases hin : (k, v) ∈ l
    · exact ih _ hin (fun x hx => huniq x (List.mem_cons_of_mem _ hx))
    · have he : e = (k, v) := by
        rcases List.mem_cons.mp hmem with h | h
        · exact h.symm
        · exact absurd h hin
      rw [mapGet_foldl_of_ne, resolveEntry_eq, mapGet_mapSet, he, if_pos rfl]
      intro x hx hxk
      exact hin (huniq x (List.mem_cons_of_mem _ hx) hxk ▸ hx)

theorem eq_of_mem_of_nodup_keys (l : List (Str × Str)) (h : (l.map Prod.fst).Nodup)
    (k v v' : Str) (h1 : (k, v) ∈ l) (h2 : (k, v') ∈ l) : v = v' := by
  induction l with
  | nil => cases h1
  | cons e l ih =>
    simp only [List.map_cons, List.nodup_cons] at h
    rcases List.mem_cons.mp h1 with a | a <;> rcases List.mem_cons.mp h2 with b | b
    · exact (Prod.mk.inj (a.trans b.symm)).2
    · exact absurd (List.mem_map_of_mem Prod.fst b) (by rw [← a] at h; exact h.1)
    · exact absurd (List.mem_map_of_mem Prod.fst a) (by rw [← b] at h; exact h.1)
    · exact ih h.2 a b

theorem foldl_resolveEntry_of_nodup (gm : GoMap) (l : List (Str × Str)) (acc : GoMap)
    (hnd : (l.map (fun e => stringsTrim e.1)).Nodup)
    (hacc : ∀ e ∈ l, stringsTrim e.1 ∉ acc.map Prod.fst) :
    l.foldl (resolveEntry gm) acc
      = acc ++ l.map (fun e => (stringsTrim e.1, resolvedValue gm e.2)) := by
  induction l generalizing acc with
  | nil => simp
  | cons e l ih =>
    simp only [List.map_cons, List.nodup_cons] at hnd
    rw [List.foldl_cons, resolveEntry_eq,
      mapSet_of_not_mem _ _ _ (hacc e (List.mem_cons_self _ _)), ih _ hnd.2]
    · simp
    · intro x hx
      simp only [List.map_append, List.map_cons, List.map_nil, List.mem_append,
        List.mem_singleton, not_or]
      refine ⟨hacc x (List.mem_cons_of_mem _ hx), ?_⟩
      intro hxe
      exact hnd.1 (hxe ▸ List.mem_map_of_mem (fun e => stringsTrim e.1) hx)

theorem trimLeftSpace_head (s : Str) : (trimLeftSpace s).head? ≠ some ' ' := by
  induction s with
  | nil => simp [trimLeftSpace]
  | cons c cs ih =>
    by_cases h : c = ' '
    · simpa [trimLeftSpace, h] using ih
    · simp [trimLeftSpace, h]

theorem trimLeftSpace_suffix (s : Str) : trimLeftSpace s <:+ s := by
  induction s with
  | nil => exact List.suffix_refl _
  | cons c cs ih =>
    by_cases h : c = ' '
    · simpa [trimLeftSpace, h] using ih.trans (List.suffix_cons c cs)
    · simp [trimLeftSpace, h]

theorem trimLeftSpace_of_head (s : Str) (h : s.head? ≠ some ' ') : trimLeftSpace s = s := by
  cases s with
  | nil => rfl
  | cons c cs =>
    have hc : c ≠ ' ' := by simpa using h
    simp [trimLeftSpace, hc]

theorem trimLeftSpace_replicate_append (n : Nat) (s : Str) :
    trimLeftSpace (List.replicate n ' ' ++ s) = trimLeftSpace s := by
  induction n with
  | zero => simp
  | succ n ih => simpa [List.replicate_succ, trimLeftSpace] using ih

theorem stringsTrim_head (s : Str) : (stringsTrim s).head? ≠ some ' ' := by
  unfold stringsTrim
  obtain ⟨w, hw⟩ := trimLeftSpace_suffix (trimLeftSpace s).reverse
  have ht : trimLeftSpace s = (trimLeftSpace (trimLeftSpace s).reverse).reverse ++ w.reverse := by
    have := congrArg List.reverse hw
    simpa using this.symm
  cases hu : (trimLeftSpace (trimLeftSpace s).reverse).reverse with
  | nil => simp
  | cons c cs =>
    have h1 := trimLeftSpace_head s
    rw [ht, hu] at h1
    simpa using h1

theorem stringsTrim_getLast (s : Str) : (stringsTrim s).getLast? ≠ some ' ' := by
  unfold stringsTrim
  rw [List.getLast?_reverse]
  exact trimLeftSpace_head _

theorem stringsTrim_of_no_space (s : Str) (h1 : s.head? ≠ some ' ')
    (h2 : s.getLast? ≠ some ' ') : stringsTrim s = s := by
  unfold stringsTrim
  rw [trimLeftSpace_of_head s h1, trimLeftSpace_of_head s.reverse (by simpa using h2),
    List.reverse_reverse]

theorem stringsTrim_padded (n m : Nat) (t : Str) (h0 : t ≠ []) (h1 : t.head? ≠ some ' ')
    (h2 : t.getLast? ≠ some ' ') :
    stringsTrim (List.replicate n ' ' ++ t ++ List.replicate m ' ') = t := by
  unfold stringsTrim
  rw [List.append_assoc, trimLeftSpace_replicate_append]
  have h3 : (t ++ List.replicate m ' ').head? ≠ some ' ' := by
    cases t with
    | nil => exact absurd rfl h0
    | cons c cs => simpa using h1
  rw [trimLeftSpace_of_head _ h3, List.reverse_append, List.reverse_replicate,
    trimLeftSpace_replicate_append, trimLeftSpace_of_head t.reverse (by simpa using h2),
    List.reverse_reverse]

theorem gitMaterialDetailsMapOf_four (repo path branch commit : Str) :
    gitMaterialDetailsMapOf [repo, path, branch, commit]
      = [(GIT_MATERIAL_REPO, repo), (GIT_MATERIAL_CHECKOUT_PATH, path),
         (GIT_MATERIAL_BRANCH, branch), (GIT_MATERIAL_COMMIT_HASH, commit)] := by
  have h1 : GIT_MATERIAL_REPO ≠ GIT_MATERIAL_CHECKOUT_PATH := by decide
  have h2 : GIT_MATERIAL_REPO ≠ GIT_MATERIAL_BRANCH := by decide
  have h3 : GIT_MATERIAL_REPO ≠ GIT_MATERIAL_COMMIT_HASH := by decide
  have h4 : GIT_MATERIAL_CHECKOUT_PATH ≠ GIT_MATERIAL_BRANCH := by decide
  have h5 : GIT_MATERIAL_CHECKOUT_PATH ≠ GIT_MATERIAL_COMMIT_HASH := by decide
  have h6 : GIT_MATERIAL_BRANCH ≠ GIT_MATERIAL_COMMIT_HASH := by decide
  simp [gitMaterialDetailsMapOf, mapSet, h1, h2, h3, h4, h5, h6]

theorem gitMaterialDetailsMapOf_not_four (fields : List Str) (h : fields.length ≠ 4) :
    gitMaterialDetailsMapOf fields = [] := by
  simp [gitMaterialDetailsMapOf, h]

theorem resolvedValue_four (repo path branch commit v : Str) :
    resolvedValue (gitMaterialDetailsMapOf [repo, path, branch, commit]) v
      = if stringsTrim v = GIT_MATERIAL_REPO then repo
        else if stringsTrim v = GIT_MATERIAL_CHECKOUT_PATH then path
        else if stringsTrim v = GIT_MATERIAL_BRANCH then branch
        else if stringsTrim v = GIT_MATERIAL_COMMIT_HASH then commit
        else stringsTrim v := by
  have h1 : GIT_MATERIAL_REPO ≠ GIT_MATERIAL_CHECKOUT_PATH := by decide
  have h2 : GIT_MATERIAL_REPO ≠ GIT_MATERIAL_BRANCH := by decide
  have h3 : GIT_MATERIAL_REPO ≠ GIT_MATERIAL_COMMIT_HASH := by decide
  have h4 : GIT_MATERIAL_CHECKOUT_PATH ≠ GIT_MATERIAL_BRANCH := by decide
  have h5 : GIT_MATERIAL_CHECKOUT_PATH ≠ GIT_MATERIAL_COMMIT_HASH := by decide
  have h6 : GIT_MATERIAL_BRANCH ≠ GIT_MATERIAL_COMMIT_HASH := by decide
  rw [gitMaterialDetailsMapOf_four]
  unfold resolvedValue
  simp only [mapGet]
  by_cases a : stringsTrim v = GIT_MATERIAL_REPO
  · simp [a]
  · have a' : ¬ GIT_MATERIAL_REPO = stringsTrim v := fun h => a h.symm
    by_cases b : stringsTrim v = GIT_MATERIAL_CHECKOUT_PATH
    · simp [b, h1, Ne.symm h1]
    · have b' : ¬ GIT_MATERIAL_CHECKOUT_PATH = stringsTrim v := fun h => b h.symm
      by_cases c : stringsTrim v = GIT_MATERIAL_BRANCH
      · simp [c, h2, h4, Ne.symm h2, Ne.symm h4]
      · have c' : ¬ GIT_MATERIAL_BRANCH = stringsTrim v := fun h => c h.symm
        by_cases d : stringsTrim v = GIT_MATERIAL_COMMIT_HASH
        · simp [d, h3, h5, h6, Ne.symm h3, Ne.symm h5, Ne.symm h6]
        · have d' : ¬ GIT_MATERIAL_COMMIT_HASH = stringsTrim v := fun h => d h.symm
          simp [a, b, c, d, a', b', c', d']

theorem resolvedValue_nil (v : Str) : resolvedValue [] v = stringsTrim v := rfl

theorem getTriggerApiInputParams_eq {ε : Type} (unmarshal : Str → GoMap → GoMap × Option ε)
    (req : JenkinsPluginInputVariables) :
    getTriggerApiInputParams unmarshal req
      = (inputParamsMapOf unmarshal req).foldl
          (resolveEntry (placeholderMapOf req.GitMaterialRequest)) [] := rfl

theorem entry_unique_of_key_unique (l : List (Str × Str)) (k v : Str)
    (hmap : (l.map Prod.fst).Nodup) (hmem : (k, v) ∈ l)
    (hkey : ∀ k' ∈ l.map Prod.fst, stringsTrim k' = stringsTrim k → k' = k) :
    ∀ e ∈ l, stringsTrim e.1 = stringsTrim k → e = (k, v) := by
  intro e he htrim
  obtain ⟨a, b⟩ := e
  have ha : a = k := hkey a (List.mem_map_of_mem Prod.fst he) htrim
  subst ha
  rw [eq_of_mem_of_nodup_keys l hmap a b v he hmem]

theorem mem_mapSet (m : GoMap) (k v : Str) (e : Str × Str) (h : e ∈ mapSet m k v) :
    e ∈ m ∨ e = (k, v) := by
  induction m with
  | nil => simpa [mapSet] using h
  | cons x m ih =>
    obtain ⟨a, b⟩ := x
    by_cases hk : a = k
    · simp only [mapSet, hk, if_true, List.mem_cons] at h
      rcases h with h | h
      · exact Or.inr h
      · exact Or.inl (List.mem_cons_of_mem _ h)
    · simp only [mapSet, hk, if_false, List.mem_cons] at h
      rcases h with h | h
      · exact Or.inl (h ▸ List.mem_cons_self _ _)
      · rcases ih h with h | h
        · exact Or.inl (List.mem_cons_of_mem _ h)
        · exact Or.inr h

theorem length_mapSet_le (m : GoMap) (k v : Str) : (mapSet m k v).length ≤ m.length + 1 := by
  induction m with
  | nil => simp [mapSet]
  | cons x m ih =>
    obtain ⟨a, b⟩ := x
    by_cases hk : a = k
    · simp [mapSet, hk]
    · simpa [mapSet, hk] using ih

theorem mem_foldl_resolveEntry (gm : GoMap) (l : List (Str × Str)) (acc : GoMap)
    (x : Str × Str) (h : x ∈ l.foldl (resolveEntry gm) acc) :
    x ∈ acc ∨ ∃ e ∈ l, x = (stringsTrim e.1, resolvedValue gm e.2) := by
  induction l generalizing acc with
  | nil => exact Or.inl h
  | cons e l ih =>
    rw [List.foldl_cons] at h
    rcases ih _ h with h1 | ⟨e', he', hx⟩
    · rw [resolveEntry_eq] at h1
      rcases mem_mapSet _ _ _ _ h1 with h2 | h2
      · exact Or.inl h2
      · exact Or.inr ⟨e, List.mem_cons_self _ _, h2⟩
    · exact Or.inr ⟨e', List.mem_cons_of_mem _ he', hx⟩

theorem length_foldl_resolveEntry_le (gm : GoMap) (l : List (Str × Str)) (acc : GoMap) :
    (l.foldl (resolveEntry gm) acc).length ≤ acc.length + l.length := by
  induction l generalizing acc with
  | nil => simp
  | cons e l ih =>
    rw [List.foldl_cons]
    have h1 := ih (resolveEntry gm acc e)
    have h2 : (resolveEntry gm acc e).length ≤ acc.length + 1 := by
      rw [resolveEntry_eq]
      exact length_mapSet_le _ _ _
    simp only [List.length_cons]
    omega

theorem mapGet_eq_some_iff (m : GoMap) (h : (m.map Prod.fst).Nodup) (k v : Str) :
    mapGet m k = some v ↔ (k, v) ∈ m := by
  induction m with
  | nil => simp [mapGet]
  | cons e m ih =>
    obtain ⟨a, b⟩ := e
    simp only [List.map_cons, List.nodup_cons] at h
    by_cases hk : a = k
    · subst hk
      simp only [mapGet, if_true, Option.some.injEq, List.mem_cons, Prod.mk.injEq, true_and]
      constructor
      · intro hb
        exact Or.inl hb.symm
      · rintro (hb | hb)
        · exact hb.symm
        · exact absurd (List.mem_map_of_mem Prod.fst hb) h.1
    · simp only [mapGet, hk, if_false, List.mem_cons, Prod.mk.injEq]
      rw [ih h.2]
      constructor
      · intro hm
        exact Or.inr hm
      · rintro (⟨hka, _⟩ | hm)
        · exact absurd hka.symm hk
        · exact hm

theorem mapGet_perm (m m' : GoMap) (hp : m.Perm m') (h : (m.map Prod.fst).Nodup) (k : Str) :
    mapGet m k = mapGet m' k := by
  have h' : (m'.map Prod.fst).Nodup := (hp.map Prod.fst).nodup_iff.mp h
  apply Option.ext
  intro v
  simp only [Option.mem_def]
  rw [mapGet_eq_some_iff m h, mapGet_eq_some_iff m' h']
  exact hp.mem_iff

theorem mapGet_foldl_of_last (gm : GoMap) (before after : List (Str × Str)) (acc : GoMap)
    (k v : Str) (hlast : ∀ e ∈ after, stringsTrim e.1 ≠ stringsTrim k) :
    mapGet ((before ++ (k, v) :: after).foldl (resolveEntry gm) acc) (stringsTrim k)
      = some (resolvedValue gm v) := by
  rw [List.foldl_append, List.foldl_cons, mapGet_foldl_of_ne _ _ _ _ hlast, resolveEntry_eq,
    mapGet_mapSet, if_pos rfl]

theorem keys_mapSet (m : GoMap) (k v : Str) :
    (mapSet m k v).map Prod.fst
      = if k ∈ m.map Prod.fst then m.map Prod.fst else m.map Prod.fst ++ [k] := by
  induction m with
  | nil => simp [mapSet]
  | cons e m ih =>
    obtain ⟨a, b⟩ := e
    by_cases h : a = k
    · subst h
      simp [mapSet]
    · have h' : ¬ k = a := fun hh => h hh.symm
      by_cases hk : k ∈ m.map Prod.fst
      · simp [mapSet, h, h', ih, hk]
      · simp [mapSet, h, h', ih, hk]

theorem nodup_keys_mapSet (m : GoMap) (k v : Str) (h : (m.map Prod.fst).Nodup) :
    ((mapSet m k v).map Prod.fst).Nodup := by
  rw [keys_mapSet]
  by_cases hk : k ∈ m.map Prod.fst
  · rw [if_pos hk]
    exact h
  · rw [if_neg hk]
    exact List.Nodup.append h (List.nodup_singleton k)
      (by
        intro x hx hx'
        rw [List.mem_singleton] at hx'
        exact hk (hx' ▸ hx))

theorem nodup_keys_foldl (gm : GoMap) (l : List (Str × Str)) (acc : GoMap)
    (h : (acc.map Prod.fst).Nodup) :
    ((l.foldl (resolveEntry gm) acc).map Prod.fst).Nodup := by
  induction l generalizing acc with
  | nil => exact h
  | cons e l ih =>
    rw [List.foldl_cons]
    apply ih
    rw [resolveEntry_eq]
    exact nodup_keys_mapSet _ _ _ h

theorem trimLeftSpace_decompose (s : Str) :
    ∃ n, s = List.replicate n ' ' ++ trimLeftSpace s := by
  induction s with
  | nil => exact ⟨0, rfl⟩
  | cons c cs ih =>
    by_cases h : c = ' '
    · obtain ⟨n, hn⟩ := ih
      refine ⟨n + 1, ?_⟩
      rw [trimLeftSpace, if_pos h, List.replicate_succ, List.cons_append, ← hn, h]
    · exact ⟨0, by simp [trimLeftSpace, h]⟩

/-- Every string is its trimmed form between two runs of spaces. -/
theorem stringsTrim_decompose (s : Str) :
    ∃ n m, s = List.replicate n ' ' ++ stringsTrim s ++ List.replicate m ' ' := by
  obtain ⟨n, hn⟩ := trimLeftSpace_decompose s
  obtain ⟨m, hm⟩ := trimLeftSpace_decompose (trimLeftSpace s).reverse
  refine ⟨n, m, ?_⟩
  have ht : trimLeftSpace s
      = (trimLeftSpace (trimLeftSpace s).reverse).reverse ++ List.replicate m ' ' := by
    have := congrArg List.reverse hm
    simpa using this
  unfold stringsTrim
  rw [List.append_assoc, ← ht, ← hn]

/-- A string without a space at either end, put between two runs of spaces, is
trimmed back to itself. -/
theorem stringsTrim_padded_core (n m : Nat) (t : Str) (h1 : t.head? ≠ some ' ')
    (h2 : t.getLast? ≠ some ' ') :
    stringsTrim (List.replicate n ' ' ++ t ++ List.replicate m ' ') = t := by
  cases t with
  | nil =>
    unfold stringsTrim
    have h0 : trimLeftSpace (List.replicate n ' ' ++ [] ++ List.replicate m ' ') = [] := by
      rw [List.append_nil, trimLeftSpace_replicate_append]
      have := trimLeftSpace_replicate_append m []
      rw [List.append_nil] at this
      rw [this]
      rfl
    rw [h0]
    rfl
  | cons c cs => exact stringsTrim_padded n m (c :: cs) (by simp) h1 h2

theorem decodeMembers_append (a b : List (Str × JValue)) (m : GoMap)
    (saved : Option JsonError) :
    decodeMembers (a ++ b) m saved
      = decodeMembers b (decodeMembers a m saved).1 (decodeMembers a m saved).2 := by
  induction a generalizing m saved with
  | nil => rfl
  | cons e a ih =>
    obtain ⟨key, v⟩ := e
    simp only [List.cons_append, decodeMembers]
    exact ih _ _

theorem mapGet_decodeMembers_of_ne (ms : List (Str × JValue)) (m : GoMap)
    (saved : Option JsonError) (key : Str) (h : ∀ e ∈ ms, e.1 ≠ key) :
    mapGet (decodeMembers ms m saved).1 key = mapGet m key := by
  induction ms generalizing m saved with
  | nil => rfl
  | cons e ms ih =>
    obtain ⟨k, v⟩ := e
    simp only [decodeMembers]
    rw [ih _ _ (fun x hx => h x (List.mem_cons_of_mem _ hx)), mapGet_mapSet,
      if_neg (h (k, v) (List.mem_cons_self _ _))]

theorem decodeMembers_error_of_saved (ms : List (Str × JValue)) (m : GoMap)
    (err : JsonError) : (decodeMembers ms m (some err)).2 = some err := by
  induction ms generalizing m with
  | nil => rfl
  | cons e ms ih =>
    obtain ⟨k, v⟩ := e
    simp only [decodeMembers]
    exact ih _

theorem decodeMembers_error_of_mem (ms : List (Str × JValue)) (m : GoMap)
    (saved : Option JsonError) (h : ∃ e ∈ ms, (decodeElem e.2).2 ≠ none) :
    (decodeMembers ms m saved).2 ≠ none := by
  induction ms generalizing m saved with
  | nil =>
    obtain ⟨e, he, _⟩ := h
    cases he
  | cons x ms ih =>
    obtain ⟨k, v⟩ := x
    simp only [decodeMembers]
    cases saved with
    | some err =>
      rw [decodeMembers_error_of_saved]
      simp
    | none =>
      cases hv : (decodeElem v).2 with
      | some err =>
        simp only []
        rw [decodeMembers_error_of_saved]
        simp
      | none =>
        apply ih
        obtain ⟨e, he, hne⟩ := h
        rcases List.mem_cons.mp he with h1 | h1
        · subst h1
          exact absurd hv hne
        · exact ⟨e, h1, hne⟩

theorem lookup_of_four_fields {ε : Type}
    (unmarshal : Str → GoMap → GoMap × Option ε) (req : JenkinsPluginInputVariables)
    (repo path branch commit k v : Str)
    (hgit : stringsSplit ((stringsSplit req.GitMaterialRequest '|').getD 0 []) ','
      = [repo, path, branch, commit])
    (hmap : ((inputParamsMapOf unmarshal req).map Prod.fst).Nodup)
    (hmem : (k, v) ∈ inputParamsMapOf unmarshal req)
    (hkey : ∀ k' ∈ (inputParamsMapOf unmarshal req).map Prod.fst,
      stringsTrim k' = stringsTrim k → k' = k) :
    mapGet (getTriggerApiInputParams unmarshal req) (stringsTrim k)
      = some (if stringsTrim v = GIT_MATERIAL_REPO then repo
              else if stringsTrim v = GIT_MATERIAL_CHECKOUT_PATH then path
              else if stringsTrim v = GIT_MATERIAL_BRANCH then branch
              else if stringsTrim v = GIT_MATERIAL_COMMIT_HASH then commit
              else stringsTrim v) := by
  rw [getTriggerApiInputParams_eq,
    mapGet_foldl_of_unique _ _ _ k v hmem (entry_unique_of_key_unique _ k v hmap hmem hkey)]
  unfold placeholderMapOf
  rw [hgit, resolvedValue_four]

theorem stringsSplit_ne_nil (s : Str) (sep : Char) : stringsSplit s sep ≠ [] := by
  induction s with
  | nil => simp [stringsSplit]
  | cons c cs ih =>
    unfold stringsSplit
    split
    · simp
    · split <;> simp

theorem stringsSplit_of_not_mem (a : Str) (sep : Char) (h : sep ∉ a) :
    stringsSplit a sep = [a] := by
  induction a with
  | nil => rfl
  | cons c cs ih =>
    simp only [List.mem_cons, not_or] at h
    have hc : c ≠ sep := fun hh => h.1 hh.symm
    rw [stringsSplit, if_neg hc, ih h.2]

theorem stringsSplit_append_sep (a b : Str) (sep : Char) (h : sep ∉ a) :
    stringsSplit (a ++ sep :: b) sep = a :: stringsSplit b sep := by
  induction a with
  | nil => simp [stringsSplit]
  | cons c cs ih =>
    simp only [List.mem_cons, not_or] at h
    have hc : c ≠ sep := fun hh => h.1 hh.symm
    rw [List.cons_append, stringsSplit, if_neg hc, ih h.2]

/-- A git-material string that begins with four fields free of `,` and `|`,
joined by commas and followed by nothing or by `|` and anything, has these four
fields as the fields of its first repository. -/
theorem fields_of_first_repo (repo path branch commit tail : Str)
    (hrepo : ',' ∉ repo ∧ '|' ∉ repo) (hpath : ',' ∉ path ∧ '|' ∉ path)
    (hbranch : ',' ∉ branch ∧ '|' ∉ branch) (hcommit : ',' ∉ commit ∧ '|' ∉ commit)
    (htail : tail = [] ∨ ∃ rest, tail = '|' :: rest) :
    stringsSplit ((stringsSplit
        (repo ++ ',' :: (path ++ ',' :: (branch ++ ',' :: commit)) ++ tail) '|').getD 0 []) ','
      = [repo, path, branch, commit] := by
  have hfirst : '|' ∉ repo ++ ',' :: (path ++ ',' :: (branch ++ ',' :: commit)) := by
    simp [hrepo.2, hpath.2, hbranch.2, hcommit.2]
  have hseg : (stringsSplit
      (repo ++ ',' :: (path ++ ',' :: (branch ++ ',' :: commit)) ++ tail) '|').getD 0 []
      = repo ++ ',' :: (path ++ ',' :: (branch ++ ',' :: commit)) := by
    rcases htail with h | ⟨rest, h⟩
    · rw [h, List.append_nil, stringsSplit_of_not_mem _ _ hfirst]
      rfl
    · rw [h, stringsSplit_append_sep _ _ _ hfirst]
      rfl
  rw [hseg, stringsSplit_append_sep _ _ _ hrepo.1, stringsSplit_append_sep _ _ _ hpath.1,
    stringsSplit_append_sep _ _ _ hbranch.1, stringsSplit_of_not_mem _ _ hcommit.1]

/-! ## Checks of the library models on sample inputs -/

theorem stringsTrim_samples :
    stringsTrim "  a b  ".toList = "a b".toList
      ∧ stringsTrim "\t a \n".toList = "\t a \n".toList
      ∧ stringsTrim "   ".toList = [] := by
  decide

theorem stringsSplit_samples :
    stringsSplit "a,b,,c".toList ',' = ["a".toList, "b".toList, [], "c".toList]
      ∧ stringsSplit [] ',' = [[]]
      ∧ stringsSplit "|".toList '|' = [[], []] := by
  decide

theorem jsonUnmarshal_samples :
    jsonUnmarshal "\x7b\"BRANCH\":\"GIT_MATERIAL_BRANCH\"\x7d".toList []
        = ([("BRANCH".toList, "GIT_MATERIAL_BRANCH".toList)], none)
      ∧ jsonUnmarshal " \x7b \"a\\u0041\\n\" : \"b\" , \"c\":[1.5e3,true,\x7b\x7d, null]\x7d ".toList []
        = ([("aA\n".toList, "b".toList), ("c".toList, [])],
            some (JsonError.unmarshalTypeError "array".toList))
      ∧ jsonUnmarshal "\x7b\"a\":\"\\ud83d\\ude00\",\"a\":null\x7d".toList []
        = ([("a".toList, [])], none)
      ∧ jsonUnmarshal " null ".toList [("a".toList, [])] = ([], none)
      ∧ jsonUnmarshal "[1,]".toList [] = ([], some JsonError.syntaxError)
      ∧ jsonUnmarshal "01".toList [] = ([], some JsonError.syntaxError)
      ∧ jsonUnmarshal "\"text\"".toList []
        = ([], some (JsonError.unmarshalTypeError "string".toList)) :=
  ⟨by decide, by decide, by decide, by decide, by decide, by decide, by decide⟩

theorem fmtPrintf_samples :
    fmtPrintf "plain text\n".toList = "plain text\n".toList
      ∧ fmtPrintf "plugin timeout occured".toList = "plugin timeout occured".toList
      ∧ fmtPrintf "error in polling build status".toList
        = "error in polling build status".toList
      ∧ fmtPrintf "100%".toList = "100%!(NOVERB)".toList
      ∧ fmtPrintf "50%% done".toList = "50% done".toList
      ∧ fmtPrintf "100%.".toList = "100%!.(MISSING)".toList
      ∧ fmtPrintf "%.2f %.".toList = "%!f(MISSING) %!.(MISSING)".toList
      ∧ fmtPrintf "%.x".toList = "%!x(MISSING)".toList
      ∧ fmtPrintf "a %d b %5.2f %[1]d %*d".toList
        = "a %!d(MISSING) b %!f(MISSING) %!d(BADINDEX) %!(BADWIDTH)%!d(MISSING)".toList := by
  decide

/-! ## The parameter resolver -/

/-- C1 (as amended): for a git-material string whose first `|`-segment splits on
`,` into exactly the four fields repo, path, branch, commit, whatever follows
the first `|`.  The result holds one value per trimmed key, that of the parsed
entry visited last among those with this trimmed key: for such an entry `(k, v)`
it maps the trimmed key to the 1st, 2nd, 3rd, 4th field when the trimmed `v` is
`GIT_MATERIAL_REPO`, `GIT_MATERIAL_CHECKOUT_PATH`, `GIT_MATERIAL_BRANCH`,
`GIT_MATERIAL_COMMIT_HASH` respectively, and to the trimmed `v` otherwise.  In
particular this holds for every entry of a parsed mapping whose key is the only
parsed key with its trimmed form, in every visiting order. -/
theorem placeholders_resolve_to_fields {ε : Type}
    (unmarshal : Str → GoMap → GoMap × Option ε) (req : JenkinsPluginInputVariables)
    (repo path branch commit : Str)
    (hgit : stringsSplit ((stringsSplit req.GitMaterialRequest '|').getD 0 []) ','
      = [repo, path, branch, commit]) :
    (∀ (before after : List (Str × Str)) (k v : Str),
        inputParamsMapOf unmarshal req = before ++ (k, v) :: after →
        (∀ e ∈ after, stringsTrim e.1 ≠ stringsTrim k) →
        mapGet (getTriggerApiInputParams unmarshal req) (stringsTrim k)
          = some (if stringsTrim v = GIT_MATERIAL_REPO then repo
                  else if stringsTrim v = GIT_MATERIAL_CHECKOUT_PATH then path
                  else if stringsTrim v = GIT_MATERIAL_BRANCH then branch
                  else if stringsTrim v = GIT_MATERIAL_COMMIT_HASH then commit
                  else stringsTrim v))
      ∧ (∀ k v : Str,
        ((inputParamsMapOf unmarshal req).map Prod.fst).Nodup →
        (k, v) ∈ inputParamsMapOf unmarshal req →
        (∀ k' ∈ (inputParamsMapOf unmarshal req).map Prod.fst,
          stringsTrim k' = stringsTrim k → k' = k) →
        mapGet (getTriggerApiInputParams unmarshal req) (stringsTrim k)
          = some (if stringsTrim v = GIT_MATERIAL_REPO then repo
                  else if stringsTrim v = GIT_MATERIAL_CHECKOUT_PATH then path
                  else if stringsTrim v = GIT_MATERIAL_BRANCH then branch
                  else if stringsTrim v = GIT_MATERIAL_COMMIT_HASH then commit
                  else stringsTrim v))
      ∧ ((getTriggerApiInputParams unmarshal req).map Prod.fst).Nodup := by
  refine ⟨?_, ?_, ?_⟩
  · intro before after k v hparsed hlast
    rw [getTriggerApiInputParams_eq, hparsed, mapGet_foldl_of_last _ _ _ _ k v hlast]
    unfold placeholderMapOf
    rw [hgit, resolvedValue_four]
  · intro k v hmap hmem hkey
    exact lookup_of_four_fields unmarshal req repo path branch commit k v hgit hmap hmem hkey
  · rw [getTriggerApiInputParams_eq]
    exact nodup_keys_foldl _ _ _ List.nodup_nil

/-- Witness of C1: the padded placeholder of scenario A resolves to the branch of
the first repository; and of the two parameters `K` and `K `, decoded in this
order, the second one gives the value of `K`. -/
theorem placeholders_resolve_to_fields_witness :
    mapGet (getTriggerApiInputParams jsonUnmarshal scenarioA) "BRANCH".toList
        = some "main".toList
      ∧ mapGet (getTriggerApiInputParams jsonUnmarshal collidingBranch) "K".toList
        = some "x".toList :=
  ⟨(placeholders_resolve_to_fields jsonUnmarshal scenarioA
      "repoA".toList "/src".toList "main".toList "abc123".toList (by decide)).2.1
      "BRANCH".toList " GIT_MATERIAL_BRANCH ".toList (by decide) (by decide) (by decide),
   (placeholders_resolve_to_fields jsonUnmarshal collidingBranch
      "repoA".toList "/src".toList "main".toList "abc123".toList (by decide)).1
      [("K".toList, "GIT_MATERIAL_BRANCH".toList)] [] "K ".toList "x".toList
      (by decide) (by decide)⟩

/-- C1 counterexample: the parameters `K` and `K ` trim to the same key.  With the
four-field material `repoA,/src,main,abc123` the claim requires `K ↦ main` for the
entry `(K, GIT_MATERIAL_BRANCH)` and `K ↦ x` for the entry `(K , x)`; the result
holds one value for `K`, that of the entry visited last, so in either visiting
order one of the two entries is not mapped as claimed. -/
theorem placeholders_colliding_keys_counterexample :
    (jsonUnmarshal collidingBranch.JobTriggerParams []).1
        = [("K".toList, "GIT_MATERIAL_BRANCH".toList), ("K ".toList, "x".toList)]
      ∧ stringsSplit ((stringsSplit collidingBranch.GitMaterialRequest '|').getD 0 []) ','
        = ["repoA".toList, "/src".toList, "main".toList, "abc123".toList]
      ∧ mapGet (getTriggerApiInputParams
          (visitedAs [("K".toList, "GIT_MATERIAL_BRANCH".toList), ("K ".toList, "x".toList)])
          collidingBranch) (stringsTrim "K".toList) = some "x".toList
      ∧ mapGet (getTriggerApiInputParams
          (visitedAs [("K ".toList, "x".toList), ("K".toList, "GIT_MATERIAL_BRANCH".toList)])
          collidingBranch) (stringsTrim "K ".toList) = some "main".toList := by
  decide

/-- C2 (as amended): when the first `|`-segment of the git-material string does
not split on `,` into exactly four fields (as for the empty string), no
substitution is made.  The result holds one value per trimmed key, that of the
parsed entry visited last among those with this trimmed key: for such an entry
`(k, v)` it maps the trimmed key to the trimmed `v`, placeholder token or not.
In particular this holds for every entry of a parsed mapping whose key is the
only parsed key with its trimmed form, in every visiting order. -/
theorem no_substitution_without_four_fields {ε : Type}
    (unmarshal : Str → GoMap → GoMap × Option ε) (req : JenkinsPluginInputVariables)
    (hgit : (stringsSplit ((stringsSplit req.GitMaterialRequest '|').getD 0 []) ',').length ≠ 4) :
    (∀ (before after : List (Str × Str)) (k v : Str),
        inputParamsMapOf unmarshal req = before ++ (k, v) :: after →
        (∀ e ∈ after, stringsTrim e.1 ≠ stringsTrim k) →
        mapGet (getTriggerApiInputParams unmarshal req) (stringsTrim k) = some (stringsTrim v))
      ∧ (∀ k v : Str,
        ((inputParamsMapOf unmarshal req).map Prod.fst).Nodup →
        (k, v) ∈ inputParamsMapOf unmarshal req →
        (∀ k' ∈ (inputParamsMapOf unmarshal req).map Prod.fst,
          stringsTrim k' = stringsTrim k → k' = k) →
        mapGet (getTriggerApiInputParams unmarshal req) (stringsTrim k) = some (stringsTrim v))
      ∧ ((getTriggerApiInputParams unmarshal req).map Prod.fst).Nodup
      ∧ (stringsSplit ((stringsSplit [] '|').getD 0 []) ',').length ≠ 4 := by
  refine ⟨?_, ?_, ?_, by decide⟩
  · intro before after k v hparsed hlast
    rw [getTriggerApiInputParams_eq, hparsed, mapGet_foldl_of_last _ _ _ _ k v hlast]
    unfold placeholderMapOf
    rw [gitMaterialDetailsMapOf_not_four _ hgit, resolvedValue_nil]
  · intro k v hmap hmem hkey
    rw [getTriggerApiInputParams_eq,
      mapGet_foldl_of_unique _ _ _ k v hmem (entry_unique_of_key_unique _ k v hmap hmem hkey)]
    unfold placeholderMapOf
    rw [gitMaterialDetailsMapOf_not_four _ hgit, resolvedValue_nil]
  · rw [getTriggerApiInputParams_eq]
    exact nodup_keys_foldl _ _ _ List.nodup_nil

/-- Witness of C2: scenario B, the empty git-material string; and with three
fields, of the two parameters `ENV` and ` ENV`, decoded in this order, the second
one gives the value of `ENV`, a placeholder token that is not substituted. -/
theorem no_substitution_without_four_fields_witness :
    scenarioB.GitMaterialRequest = []
      ∧ mapGet (getTriggerApiInputParams jsonUnmarshal scenarioB) "ENV".toList
        = some "prod".toList
      ∧ mapGet (getTriggerApiInputParams jsonUnmarshal collidingPlain) "ENV".toList
        = some "GIT_MATERIAL_REPO".toList :=
  ⟨rfl,
   (no_substitution_without_four_fields jsonUnmarshal scenarioB (by decide)).2.1
      "ENV".toList " prod".toList (by decide) (by decide) (by decide),
   (no_substitution_without_four_fields jsonUnmarshal collidingPlain (by decide)).1
      [("ENV".toList, "prod".toList)] [] " ENV".toList "GIT_MATERIAL_REPO".toList
      (by decide) (by decide)⟩

/-- C2 counterexample: with the three-field material `repoA,/src,main` and the
parameters `ENV` and ` ENV`, which trim to the same key, the claim requires
`ENV ↦ prod` and `ENV ↦ GIT_MATERIAL_REPO` at once; the result holds the value of
the entry visited last, so in either visiting order one entry is not mapped to
its trimmed value. -/
theorem no_substitution_colliding_keys_counterexample :
    (jsonUnmarshal collidingPlain.JobTriggerParams []).1
        = [("ENV".toList, "prod".toList), (" ENV".toList, "GIT_MATERIAL_REPO".toList)]
      ∧ (stringsSplit ((stringsSplit collidingPlain.GitMaterialRequest '|').getD 0 []) ',').length
        = 3
      ∧ mapGet (getTriggerApiInputParams
          (visitedAs [("ENV".toList, "prod".toList), (" ENV".toList, "GIT_MATERIAL_REPO".toList)])
          collidingPlain) (stringsTrim "ENV".toList) = some "GIT_MATERIAL_REPO".toList
      ∧ mapGet (getTriggerApiInputParams
          (visitedAs [(" ENV".toList, "GIT_MATERIAL_REPO".toList), ("ENV".toList, "prod".toList)])
          collidingPlain) (stringsTrim " ENV".toList) = some "prod".toList := by
  decide

theorem mem_keys_getTriggerApiInputParams {ε : Type}
    (unmarshal : Str → GoMap → GoMap × Option ε) (req : JenkinsPluginInputVariables)
    (key : Str) (h : key ∈ (getTriggerApiInputParams unmarshal req).map Prod.fst) :
    ∃ e ∈ inputParamsMapOf unmarshal req, key = stringsTrim e.1 := by
  obtain ⟨x, hx, hkx⟩ := List.mem_map.mp h
  rw [getTriggerApiInputParams_eq] at hx
  rcases mem_foldl_resolveEntry _ _ _ _ hx with h1 | ⟨e, he, hxe⟩
  · cases h1
  · exact ⟨e, he, by rw [← hkx, hxe]⟩

/-- C3 (as amended): the resolver removes the surrounding space characters
(U+0020) of every key and value, and only those, before the placeholder
comparison; a tab, a newline or a carriage return at either end is kept.  Every
key of the resolved mapping has no leading and no trailing space.  For a parsed
entry whose key is `ck` between any numbers of spaces and whose value is `cv`
between any numbers of spaces, where `ck` and `cv` have no space at either end,
and which is visited last among the entries whose key is `ck` between spaces:
the result maps `ck` to the corresponding field when the git material has four
fields and `cv` is exactly a placeholder token, and to `cv` as it is in every
other case. -/
theorem trims_spaces_before_comparison {ε : Type}
    (unmarshal : Str → GoMap → GoMap × Option ε) (req : JenkinsPluginInputVariables) :
    (∀ key ∈ (getTriggerApiInputParams unmarshal req).map Prod.fst,
        key.head? ≠ some ' ' ∧ key.getLast? ≠ some ' ')
      ∧ (∀ (before after : List (Str × Str)) (k v ck cv : Str) (n1 m1 n2 m2 : Nat),
          inputParamsMapOf unmarshal req = before ++ (k, v) :: after →
          k = List.replicate n1 ' ' ++ ck ++ List.replicate m1 ' ' →
          ck.head? ≠ some ' ' → ck.getLast? ≠ some ' ' →
          v = List.replicate n2 ' ' ++ cv ++ List.replicate m2 ' ' →
          cv.head? ≠ some ' ' → cv.getLast? ≠ some ' ' →
          (∀ e ∈ after, ∀ n m : Nat,
            e.1 ≠ List.replicate n ' ' ++ ck ++ List.replicate m ' ') →
          (∀ repo path branch commit : Str,
              stringsSplit ((stringsSplit req.GitMaterialRequest '|').getD 0 []) ','
                = [repo, path, branch, commit] →
              mapGet (getTriggerApiInputParams unmarshal req) ck
                = some (if cv = GIT_MATERIAL_REPO then repo
                        else if cv = GIT_MATERIAL_CHECKOUT_PATH then path
                        else if cv = GIT_MATERIAL_BRANCH then branch
                        else if cv = GIT_MATERIAL_COMMIT_HASH then commit
                        else cv))
            ∧ ((stringsSplit ((stringsSplit req.GitMaterialRequest '|').getD 0 []) ',').length
                ≠ 4 →
              mapGet (getTriggerApiInputParams unmarshal req) ck = some cv)) := by
  refine ⟨?_, ?_⟩
  · intro key hkey
    obtain ⟨e, _, he⟩ := mem_keys_getTriggerApiInputParams unmarshal req key hkey
    rw [he]
    exact ⟨stringsTrim_head _, stringsTrim_getLast _⟩
  · intro before after k v ck cv n1 m1 n2 m2 hparsed hk hck1 hck2 hv hcv1 hcv2 hlast
    have htk : stringsTrim k = ck := by rw [hk]; exact stringsTrim_padded_core n1 m1 ck hck1 hck2
    have htv : stringsTrim v = cv := by rw [hv]; exact stringsTrim_padded_core n2 m2 cv hcv1 hcv2
    have hlast' : ∀ e ∈ after, stringsTrim e.1 ≠ stringsTrim k := by
      intro e he hte
      obtain ⟨n, m, hnm⟩ := stringsTrim_decompose e.1
      rw [hte, htk] at hnm
      exact hlast e he n m hnm
    have hget : mapGet (getTriggerApiInputParams unmarshal req) ck
        = some (resolvedValue (placeholderMapOf req.GitMaterialRequest) v) := by
      rw [getTriggerApiInputParams_eq, hparsed, ← htk,
        mapGet_foldl_of_last _ _ _ _ k v hlast']
    refine ⟨?_, ?_⟩
    · intro repo path branch commit hgit
      rw [hget]
      unfold placeholderMapOf
      rw [hgit, resolvedValue_four, htv]
    · intro hgit
      rw [hget]
      unfold placeholderMapOf
      rw [gitMaterialDetailsMapOf_not_four _ hgit, resolvedValue_nil, htv]

/-- Witness of C3: the key `  HASH ` with the value `   GIT_MATERIAL_COMMIT_HASH  `
is resolved to the commit under the key `HASH`; the key that begins with a tab
and the value `GIT_MATERIAL_BRANCH` followed by a newline are kept as they are. -/
theorem trims_spaces_before_comparison_witness :
    mapGet (getTriggerApiInputParams jsonUnmarshal paddedRequest) "HASH".toList
        = some "abc123".toList
      ∧ mapGet (getTriggerApiInputParams jsonUnmarshal tabbedRequest) "\tBRANCH".toList
        = some "GIT_MATERIAL_BRANCH\n".toList :=
  ⟨((trims_spaces_before_comparison jsonUnmarshal paddedRequest).2
      [] [] "  HASH ".toList "   GIT_MATERIAL_COMMIT_HASH  ".toList
      "HASH".toList GIT_MATERIAL_COMMIT_HASH 2 1 3 2
      (by decide) (by decide) (by decide) (by decide) (by decide) (by decide) (by decide)
      (fun e he => absurd he (List.not_mem_nil e))).1
      "repoA".toList "/src".toList "main".toList "abc123".toList (by decide),
   ((trims_spaces_before_comparison jsonUnmarshal tabbedRequest).2
      [] [] "\tBRANCH".toList "GIT_MATERIAL_BRANCH\n".toList
      "\tBRANCH".toList "GIT_MATERIAL_BRANCH\n".toList 0 0 0 0
      (by decide) (by decide) (by decide) (by decide) (by decide) (by decide) (by decide)
      (fun e he => absurd he (List.not_mem_nil e))).1
      "repoA".toList "/src".toList "main".toList "abc123".toList (by decide)⟩

/-- C3 counterexample: a tab before the key and a newline after the value are
whitespace, and are not removed: the key of the result begins with the tab, and
the value `GIT_MATERIAL_BRANCH` followed by a newline is not replaced by the
branch `main` of the four-field material. -/
theorem trims_only_spaces_counterexample :
    (jsonUnmarshal tabbedRequest.JobTriggerParams []).1
        = [(['\t', 'B', 'R', 'A', 'N', 'C', 'H'], GIT_MATERIAL_BRANCH ++ ['\n'])]
      ∧ getTriggerApiInputParams jsonUnmarshal tabbedRequest
        = [(['\t', 'B', 'R', 'A', 'N', 'C', 'H'], GIT_MATERIAL_BRANCH ++ ['\n'])]
      ∧ mapGet (getTriggerApiInputParams jsonUnmarshal tabbedRequest) "BRANCH".toList = none := by
  decide

theorem getTriggerApiInputParams_of_nodup {ε : Type}
    (unmarshal : Str → GoMap → GoMap × Option ε) (req : JenkinsPluginInputVariables)
    (hnd : ((inputParamsMapOf unmarshal req).map (fun e => stringsTrim e.1)).Nodup) :
    getTriggerApiInputParams unmarshal req
      = (inputParamsMapOf unmarshal req).map
          (fun e => (stringsTrim e.1, resolvedValue (placeholderMapOf req.GitMaterialRequest) e.2)) := by
  rw [getTriggerApiInputParams_eq, foldl_resolveEntry_of_nodup _ _ _ hnd (by simp)]
  simp

/-- C9 (as amended): when no two keys of the parsed mapping have the same trimmed
form, the result holds exactly one entry per source entry: it has as many
entries as the source, it maps the trimmed `k` to the resolution of `v` for
every source entry `(k, v)`, and it is the same mapping for every order in which
the entries are visited.  In any case the result has at most as many entries as
the source, and each of its entries is the trimmed key and the resolved value of
a source entry. -/
theorem one_entry_per_source_entry {ε : Type}
    (unmarshal : Str → GoMap → GoMap × Option ε) (req : JenkinsPluginInputVariables) :
    (((inputParamsMapOf unmarshal req).map (fun e => stringsTrim e.1)).Nodup →
        (getTriggerApiInputParams unmarshal req).length = (inputParamsMapOf unmarshal req).length
        ∧ (∀ k v : Str, (k, v) ∈ inputParamsMapOf unmarshal req →
            mapGet (getTriggerApiInputParams unmarshal req) (stringsTrim k)
              = some (resolvedValue (placeholderMapOf req.GitMaterialRequest) v))
        ∧ (∀ unmarshal' : Str → GoMap → GoMap × Option ε,
            (inputParamsMapOf unmarshal' req).Perm (inputParamsMapOf unmarshal req) →
            ∀ key : Str, mapGet (getTriggerApiInputParams unmarshal' req) key
              = mapGet (getTriggerApiInputParams unmarshal req) key))
      ∧ (getTriggerApiInputParams unmarshal req).length ≤ (inputParamsMapOf unmarshal req).length
      ∧ (∀ x ∈ getTriggerApiInputParams unmarshal req, ∃ e ∈ inputParamsMapOf unmarshal req,
          x = (stringsTrim e.1, resolvedValue (placeholderMapOf req.GitMaterialRequest) e.2)) := by
  refine ⟨fun hnd => ⟨?_, ?_, ?_⟩, ?_, ?_⟩
  · rw [getTriggerApiInputParams_of_nodup unmarshal req hnd, List.length_map]
  · intro k v hmem
    rw [getTriggerApiInputParams_eq]
    refine mapGet_foldl_of_unique _ _ _ k v hmem ?_
    intro e he htrim
    exact List.inj_on_of_nodup_map hnd he hmem htrim
  · intro unmarshal' hp key
    have hnd' : ((inputParamsMapOf unmarshal' req).map (fun e => stringsTrim e.1)).Nodup :=
      (hp.map _).nodup_iff.mpr hnd
    rw [getTriggerApiInputParams_of_nodup unmarshal req hnd,
      getTriggerApiInputParams_of_nodup unmarshal' req hnd']
    refine mapGet_perm _ _ (hp.map _) ?_ key
    rw [List.map_map]
    exact hnd'
  · have h := length_foldl_resolveEntry_le (placeholderMapOf req.GitMaterialRequest)
      (inputParamsMapOf unmarshal req) []
    rw [getTriggerApiInputParams_eq]
    simpa using h
  · intro x hx
    rw [getTriggerApiInputParams_eq] at hx
    rcases mem_foldl_resolveEntry _ _ _ _ hx with h1 | h1
    · cases h1
    · exact h1

/-- Witness of C9: two parameters with distinct trimmed names give two entries. -/
theorem one_entry_per_source_entry_witness :
    (getTriggerApiInputParams jsonUnmarshal twoParams).length = 2
      ∧ mapGet (getTriggerApiInputParams jsonUnmarshal twoParams) "a".toList = some "repoA".toList
      ∧ mapGet (getTriggerApiInputParams jsonUnmarshal twoParams) "b".toList = some "2".toList :=
  ⟨((one_entry_per_source_entry jsonUnmarshal twoParams).1 (by decide)).1,
    ((one_entry_per_source_entry jsonUnmarshal twoParams).1 (by decide)).2.1
      "a ".toList "GIT_MATERIAL_REPO".toList (by decide),
    ((one_entry_per_source_entry jsonUnmarshal twoParams).1 (by decide)).2.1
      " b".toList " 2".toList (by decide)⟩

/-- C9 counterexample: the parsed mapping of `{"a":"1"," a":"2"}` has two entries
with the unique keys `a` and ` a`; both trim to `a`, so the result has one entry
in either visiting order, and its value depends on the order. -/
theorem colliding_keys_one_entry_counterexample :
    (jsonUnmarshal collidingCount.JobTriggerParams []).1
        = [("a".toList, "1".toList), (" a".toList, "2".toList)]
      ∧ getTriggerApiInputParams
          (visitedAs [("a".toList, "1".toList), (" a".toList, "2".toList)]) collidingCount
        = [("a".toList, "2".toList)]
      ∧ getTriggerApiInputParams
          (visitedAs [(" a".toList, "2".toList), ("a".toList, "1".toList)]) collidingCount
        = [("a".toList, "1".toList)] := by
  decide

/-- C4 (as amended): the resolver never aborts and never looks at the error of
the decoding, only at the map the decoding left.  For the empty
`JobTriggerParams` it returns the empty mapping without decoding; when the
decoding stored nothing (as on every syntax error, which is reported before
anything is stored) it returns the empty mapping.  Otherwise, whatever error the
decoding reports, the result is the resolution of the stored entries: each
stored entry visited last among those with its trimmed key is found under its
trimmed key with its resolved value, and every entry of the result comes from a
stored entry.  A decoding that fails with a type error has stored the string
members of the object all the same. -/
theorem decode_error_is_ignored (req : JenkinsPluginInputVariables) :
    (req.JobTriggerParams = [] →
        ∀ unmarshal : Str → GoMap → GoMap × Option JsonError,
          getTriggerApiInputParams unmarshal req = [])
      ∧ (∀ unmarshal : Str → GoMap → GoMap × Option JsonError,
          (unmarshal req.JobTriggerParams []).1 = [] →
          getTriggerApiInputParams unmarshal req = [])
      ∧ (parseJSON req.JobTriggerParams = none →
          jsonUnmarshal req.JobTriggerParams [] = ([], some JsonError.syntaxError)
          ∧ getTriggerApiInputParams jsonUnmarshal req = [])
      ∧ (∀ unmarshal unmarshal' : Str → GoMap → GoMap × Option JsonError,
          (unmarshal req.JobTriggerParams []).1 = (unmarshal' req.JobTriggerParams []).1 →
          getTriggerApiInputParams unmarshal req = getTriggerApiInputParams unmarshal' req)
      ∧ (∀ (unmarshal : Str → GoMap → GoMap × Option JsonError)
          (before after : List (Str × Str)) (k v : Str),
          req.JobTriggerParams ≠ [] →
          (unmarshal req.JobTriggerParams []).1 = before ++ (k, v) :: after →
          (∀ e ∈ after, stringsTrim e.1 ≠ stringsTrim k) →
          mapGet (getTriggerApiInputParams unmarshal req) (stringsTrim k)
            = some (resolvedValue (placeholderMapOf req.GitMaterialRequest) v))
      ∧ (∀ (unmarshal : Str → GoMap → GoMap × Option JsonError),
          ∀ x ∈ getTriggerApiInputParams unmarshal req,
            ∃ e ∈ (unmarshal req.JobTriggerParams []).1,
              x = (stringsTrim e.1, resolvedValue (placeholderMapOf req.GitMaterialRequest) e.2))
      ∧ (∀ (members before after : List (Str × JValue)) (key text : Str),
          parseJSON req.JobTriggerParams = some (JValue.object members) →
          members = before ++ (key, JValue.string text) :: after →
          (∀ e ∈ after, e.1 ≠ key) →
          mapGet (jsonUnmarshal req.JobTriggerParams []).1 key = some text
          ∧ ((∃ e ∈ members, (decodeElem e.2).2 ≠ none) →
              (jsonUnmarshal req.JobTriggerParams []).2 ≠ none)) := by
  have hstored : ∀ unmarshal : Str → GoMap → GoMap × Option JsonError,
      (unmarshal req.JobTriggerParams []).1 = [] →
      getTriggerApiInputParams unmarshal req = [] := by
    intro unmarshal h
    rw [getTriggerApiInputParams_eq]
    unfold inputParamsMapOf
    split <;> simp [h]
  have hbad : parseJSON req.JobTriggerParams = none →
      jsonUnmarshal req.JobTriggerParams [] = ([], some JsonError.syntaxError) := by
    intro h
    simp [jsonUnmarshal, h]
  have hparsed : ∀ unmarshal : Str → GoMap → GoMap × Option JsonError,
      req.JobTriggerParams ≠ [] →
      inputParamsMapOf unmarshal req = (unmarshal req.JobTriggerParams []).1 := by
    intro unmarshal hne
    unfold inputParamsMapOf
    rw [if_pos (List.length_pos.mpr hne)]
  refine ⟨?_, hstored, ?_, ?_, ?_, ?_, ?_⟩
  · intro h unmarshal
    rw [getTriggerApiInputParams_eq]
    simp [inputParamsMapOf, h]
  · intro h
    exact ⟨hbad h, hstored jsonUnmarshal (by rw [hbad h])⟩
  · intro unmarshal unmarshal' h
    rw [getTriggerApiInputParams_eq, getTriggerApiInputParams_eq]
    unfold inputParamsMapOf
    rw [h]
  · intro unmarshal before after k v hne hst hlast
    rw [getTriggerApiInputParams_eq, hparsed unmarshal hne, hst,
      mapGet_foldl_of_last _ _ _ _ k v hlast]
  · intro unmarshal x hx
    rw [getTriggerApiInputParams_eq] at hx
    rcases mem_foldl_resolveEntry _ _ _ _ hx with h1 | ⟨e, he, hxe⟩
    · cases h1
    · refine ⟨e, ?_, hxe⟩
      unfold inputParamsMapOf at he
      split at he
      · exact he
      · cases he
  · intro members before after key text hparse hmem hlast
    have hun : jsonUnmarshal req.JobTriggerParams [] = decodeMembers members [] none := by
      simp [jsonUnmarshal, hparse]
    rw [hun]
    refine ⟨?_, fun h => decodeMembers_error_of_mem _ _ _ h⟩
    rw [hmem, decodeMembers_append]
    simp only [decodeMembers]
    rw [mapGet_decodeMembers_of_ne _ _ _ _ hlast, mapGet_mapSet, if_pos rfl]
    rfl

/-- Witness of C4: an object that is cut short is a syntax error and gives the
empty mapping; the object `{"x":" y ","n":true}` is a type error, and its string
member is resolved all the same. -/
theorem decode_error_is_ignored_witness :
    (jsonUnmarshal brokenParams.JobTriggerParams [] = ([], some JsonError.syntaxError)
        ∧ getTriggerApiInputParams jsonUnmarshal brokenParams = [])
      ∧ (jsonUnmarshal flaggedParams.JobTriggerParams []).2
        = some (JsonError.unmarshalTypeError "bool".toList)
      ∧ mapGet (getTriggerApiInputParams jsonUnmarshal flaggedParams) "x".toList
        = some "y".toList :=
  ⟨(decode_error_is_ignored brokenParams).2.2.1 (Option.isNone_iff_eq_none.mp (by decide)),
   by decide,
   (decode_error_is_ignored flaggedParams).2.2.2.2.1 jsonUnmarshal
      [] [("n".toList, [])] "x".toList " y ".toList (by decide) (by decide) (by decide)⟩

/-- C4 counterexample: decoding `{"a":"b","c":1}` fails, with a type error for the
number `1`, after the member `a` has been stored; the resolver returns the
stored entries, so its result maps `a` to `b` and is not the empty mapping. -/
theorem type_error_keeps_entries_counterexample :
    (jsonUnmarshal mixedParams.JobTriggerParams []).2
        = some (JsonError.unmarshalTypeError "number".toList)
      ∧ mapGet (getTriggerApiInputParams jsonUnmarshal mixedParams) "a".toList
        = some "b".toList
      ∧ getTriggerApiInputParams jsonUnmarshal mixedParams ≠ [] := by
  decide

/-! ## The observer loops -/

theorem forLoop_of_cond_false {σ ρ : Type} (cond : σ → Bool)
    (body : σ → List Event × Step σ ρ) (after : ρ) (fuel : Nat) (s : σ)
    (h : cond s = false) : forLoop cond body after fuel s = ([], s, some after) := by
  unfold forLoop
  simp [h]

theorem forLoop_zero {σ ρ : Type} (cond : σ → Bool)
    (body : σ → List Event × Step σ ρ) (after : ρ) (s : σ)
    (h : cond s = true) : forLoop cond body after 0 s = ([], s, none) := by
  unfold forLoop
  simp [h]

theorem forLoop_succ_next {σ ρ : Type} (cond : σ → Bool)
    (body : σ → List Event × Step σ ρ) (after : ρ) (fuel : Nat) (s s1 : σ) (evs : List Event)
    (h : cond s = true) (hb : body s = (evs, Step.next s1)) :
    forLoop cond body after (fuel + 1) s
      = (evs ++ (forLoop cond body after fuel s1).1, (forLoop cond body after fuel s1).2) := by
  rw [forLoop]
  simp [h, hb]

theorem forLoop_succ_ret {σ ρ : Type} (cond : σ → Bool)
    (body : σ → List Event × Step σ ρ) (after : ρ) (fuel : Nat) (s s1 : σ) (evs : List Event)
    (r : ρ) (h : cond s = true) (hb : body s = (evs, Step.ret s1 r)) :
    forLoop cond body after (fuel + 1) s = (evs, s1, some r) := by
  rw [forLoop]
  simp [h, hb]

theorem printBuildLogsFrom_step (env : ObserverEnv) (build : Build) (fuel : Nat) (s : LogState)
    (r : ConsoleResponse) (hmore : s.hasMoreText = true) (hctx : env.ctxDone s.selects = false)
    (hok : env.console build.Base s.fetches = Except.ok r) :
    printBuildLogsFrom env build (fuel + 1) s
      = (logEventsOf r s.startIndex ++
          (printBuildLogsFrom env build fuel
            { startIndex := r.Offset, hasMoreText := r.HasMoreText,
              selects := s.selects + 1, fetches := s.fetches + 1 }).1,
         (printBuildLogsFrom env build fuel
            { startIndex := r.Offset, hasMoreText := r.HasMoreText,
              selects := s.selects + 1, fetches := s.fetches + 1 }).2) := by
  unfold printBuildLogsFrom
  refine forLoop_succ_next _ _ _ _ _ _ _ hmore ?_
  simp [logBody, hctx, hok, logEventsOf]

theorem printBuildLogsFrom_timeout (env : ObserverEnv) (build : Build) (fuel : Nat)
    (s : LogState) (hmore : s.hasMoreText = true) (hctx : env.ctxDone s.selects = true) :
    printBuildLogsFrom env build (fuel + 1) s
      = ([Event.write "plugin timeout occured\n".toList],
          { s with selects := s.selects + 1 }, some (some TIMED_OUT_ERROR)) := by
  unfold printBuildLogsFrom
  refine forLoop_succ_ret _ _ _ _ _ _ _ _ hmore ?_
  simp [logBody, hctx]

theorem logStateAfter_hasMoreText (resp : Nat → ConsoleResponse) (k : Nat)
    (h : ∀ i, i < k → (resp i).HasMoreText = true) :
    (logStateAfter resp k).hasMoreText = true := by
  cases k with
  | zero => rfl
  | succ k => exact h k (Nat.lt_succ_self k)

theorem logStateAfter_counts (resp : Nat → ConsoleResponse) (k : Nat) :
    (logStateAfter resp k).selects = k ∧ (logStateAfter resp k).fetches = k := by
  cases k <;> exact ⟨rfl, rfl⟩

/-- The first `k` passes of the log streamer, when the deadline has not expired
and the first `k` responses are free of error and announce more text. -/
theorem printBuildLogs_unroll (env : ObserverEnv) (build : Build)
    (resp : Nat → ConsoleResponse) (k : Nat)
    (hctx : ∀ i, i < k → env.ctxDone i = false)
    (hok : ∀ i, i < k → env.console build.Base i = Except.ok (resp i))
    (hmore : ∀ i, i < k → (resp i).HasMoreText = true) (extra : Nat) :
    printBuildLogs env (k + extra) build
      = (logEventsUpTo resp k ++
          (printBuildLogsFrom env build extra (logStateAfter resp k)).1,
         (printBuildLogsFrom env build extra (logStateAfter resp k)).2) := by
  induction k generalizing extra with
  | zero =>
    simp only [Nat.zero_add, logEventsUpTo, List.nil_append]
    rfl
  | succ k ih =>
    have h1 := ih (fun i hi => hctx i (Nat.lt_succ_of_lt hi))
      (fun i hi => hok i (Nat.lt_succ_of_lt hi))
      (fun i hi => hmore i (Nat.lt_succ_of_lt hi)) (extra + 1)
    have hk : k + 1 + extra = k + (extra + 1) := by omega
    have hc := logStateAfter_counts resp k
    have hstep := printBuildLogsFrom_step env build extra (logStateAfter resp k) (resp k)
      (logStateAfter_hasMoreText resp k (fun i hi => hmore i (Nat.lt_succ_of_lt hi)))
      (by rw [hc.1]; exact hctx k (Nat.lt_succ_self k))
      (by rw [hc.2]; exact hok k (Nat.lt_succ_self k))
    rw [hc.1, hc.2] at hstep
    rw [hk, h1, hstep]
    simp [logEventsUpTo, logStateAfter, List.append_assoc]

theorem fetchOffsets_append (a b : List Event) :
    fetchOffsets (a ++ b) = fetchOffsets a ++ fetchOffsets b := by
  induction a with
  | nil => rfl
  | cons e a ih => cases e <;> simp [fetchOffsets, ih]

theorem fetchOffsets_logEventsOf (r : ConsoleResponse) (i : Int) :
    fetchOffsets (logEventsOf r i) = [i] := by
  unfold logEventsOf
  split <;> simp [fetchOffsets]

theorem fetchOffsets_logEventsUpTo (resp : Nat → ConsoleResponse) (k : Nat) :
    fetchOffsets (logEventsUpTo resp k)
      = (List.range k).map (fun i => (logStateAfter resp i).startIndex) := by
  induction k with
  | zero => rfl
  | succ k ih =>
    rw [logEventsUpTo, fetchOffsets_append, ih, fetchOffsets_logEventsOf, List.range_succ,
      List.map_append]
    rfl

theorem range_startIndex (resp : Nat → ConsoleResponse) (n : Nat) :
    (List.range (n + 1)).map (fun i => (logStateAfter resp i).startIndex)
      = 0 :: (List.range n).map (fun i => (resp i).Offset) := by
  rw [List.range_succ_eq_map, List.map_cons, List.map_map]
  rfl

/-- C6: with error-free console responses `resp 0, resp 1, ...` and a deadline
that never expires, where `resp n` is the first response whose `HasMoreText` is
false: `printBuildLogs` returns `nil` having made exactly the `n + 1` requests
from the offsets `0, (resp 0).Offset, ..., (resp (n - 1)).Offset`; within `n`
passes it has not returned; and nothing of this depends on the state `Raw` of
the build. -/
theorem printBuildLogs_stops_at_first_no_more_text (env : ObserverEnv) (build : Build)
    (resp : Nat → ConsoleResponse) (n : Nat)
    (hctx : ∀ i, env.ctxDone i = false)
    (hok : ∀ i, env.console build.Base i = Except.ok (resp i))
    (hmore : ∀ i, i < n → (resp i).HasMoreText = true)
    (hlast : (resp n).HasMoreText = false) :
    (∀ fuel, n < fuel →
        (printBuildLogs env fuel build).2.2 = some none
        ∧ fetchOffsets (printBuildLogs env fuel build).1
          = 0 :: (List.range n).map (fun i => (resp i).Offset))
      ∧ (∀ fuel, fuel ≤ n → (printBuildLogs env fuel build).2.2 = none)
      ∧ (∀ fuel raw, printBuildLogs env fuel { build with Raw := raw }
          = printBuildLogs env fuel build) := by
  refine ⟨?_, ?_, ?_⟩
  · intro fuel hfuel
    obtain ⟨extra, rfl⟩ : ∃ extra, fuel = (n + 1) + extra := ⟨fuel - (n + 1), by omega⟩
    have hun := printBuildLogs_unroll env build resp n (fun i _ => hctx i) (fun i _ => hok i)
      hmore (1 + extra)
    have hc := logStateAfter_counts resp n
    have hstep := printBuildLogsFrom_step env build extra (logStateAfter resp n) (resp n)
      (logStateAfter_hasMoreText resp n hmore) (hctx _) (by rw [hc.2]; exact hok n)
    have hexit : printBuildLogsFrom env build extra
        { startIndex := (resp n).Offset, hasMoreText := (resp n).HasMoreText,
          selects := (logStateAfter resp n).selects + 1,
          fetches := (logStateAfter resp n).fetches + 1 }
        = ([], { startIndex := (resp n).Offset, hasMoreText := (resp n).HasMoreText,
                 selects := (logStateAfter resp n).selects + 1,
                 fetches := (logStateAfter resp n).fetches + 1 }, some none) := by
      unfold printBuildLogsFrom
      exact forLoop_of_cond_false _ _ _ _ _ hlast
    have hk : n + 1 + extra = n + (1 + extra) := by omega
    have h1 : 1 + extra = extra + 1 := by omega
    rw [hk, hun, h1, hstep, hexit]
    refine ⟨rfl, ?_⟩
    simp only [List.append_nil]
    rw [fetchOffsets_append, fetchOffsets_logEventsUpTo, fetchOffsets_logEventsOf,
      ← range_startIndex, List.range_succ, List.map_append]
    rfl
  · intro fuel hfuel
    have hun := printBuildLogs_unroll env build resp fuel (fun i _ => hctx i) (fun i _ => hok i)
      (fun i hi => hmore i (Nat.lt_of_lt_of_le hi hfuel)) 0
    rw [Nat.add_zero] at hun
    rw [hun]
    unfold printBuildLogsFrom
    rw [forLoop_zero _ _ _ _
      (logStateAfter_hasMoreText resp fuel (fun i hi => hmore i (Nat.lt_of_lt_of_le hi hfuel)))]
  · intro fuel raw
    rfl

/-- Witness of C6: three chunks, the third one closing the log. -/
theorem printBuildLogs_stops_at_first_no_more_text_witness :
    (printBuildLogs demoEnv 5 freshBuild).2.2 = some none
      ∧ fetchOffsets (printBuildLogs demoEnv 5 freshBuild).1
        = 0 :: (List.range 2).map (fun i => (demoResp i).Offset)
      ∧ (printBuildLogs demoEnv 2 freshBuild).2.2 = none :=
  ⟨((printBuildLogs_stops_at_first_no_more_text demoEnv freshBuild demoResp 2
      (fun _ => rfl) (fun i => by unfold demoEnv demoResp; dsimp only; split_ifs <;> rfl)
      (by decide) (by decide)).1 5 (by decide)).1,
   ((printBuildLogs_stops_at_first_no_more_text demoEnv freshBuild demoResp 2
      (fun _ => rfl) (fun i => by unfold demoEnv demoResp; dsimp only; split_ifs <;> rfl)
      (by decide) (by decide)).1 5 (by decide)).2,
   (printBuildLogs_stops_at_first_no_more_text demoEnv freshBuild demoResp 2
      (fun _ => rfl) (fun i => by unfold demoEnv demoResp; dsimp only; split_ifs <;> rfl)
      (by decide) (by decide)).2.1 2 (by decide)⟩

/-- C7: in both observer loops, when a pass begins with the loop condition still
true and the deadline expired, the function returns the error `timed-out`, and
all it does from there is to write the timeout message: no sleep, no status
poll and no console request.  For the log streamer this holds in particular
after `n` passes that each made one request: the `n` requests already made are
the only ones. -/
theorem observer_loops_time_out (req : JenkinsPluginInputVariables) (env : ObserverEnv)
    (build : Build) (fuel : Nat) :
    (∀ s : PollState, isTerminalStatus s.build.Raw.Result = false →
        env.ctxDone s.selects = true →
        pollBuildStatusFrom req env (fuel + 1) s
          = ([Event.write "plugin timeout occured".toList],
              { s with selects := s.selects + 1 }, some (some TIMED_OUT_ERROR)))
      ∧ (∀ s : LogState, s.hasMoreText = true → env.ctxDone s.selects = true →
        printBuildLogsFrom env build (fuel + 1) s
          = ([Event.write "plugin timeout occured\n".toList],
              { s with selects := s.selects + 1 }, some (some TIMED_OUT_ERROR)))
      ∧ (∀ (resp : Nat → ConsoleResponse) (n : Nat),
        (∀ i, i < n → env.ctxDone i = false) →
        (∀ i, i < n → env.console build.Base i = Except.ok (resp i)) →
        (∀ i, i < n → (resp i).HasMoreText = true) →
        env.ctxDone n = true →
        (printBuildLogs env (n + (fuel + 1)) build).2.2 = some (some TIMED_OUT_ERROR)
        ∧ (printBuildLogs env (n + (fuel + 1)) build).1
          = logEventsUpTo resp n ++ [Event.write "plugin timeout occured\n".toList]
        ∧ (fetchOffsets (printBuildLogs env (n + (fuel + 1)) build).1).length = n) := by
  refine ⟨?_, printBuildLogsFrom_timeout env build fuel, ?_⟩
  · intro s hterm hctx
    unfold pollBuildStatusFrom
    refine forLoop_succ_ret _ _ _ _ _ _ _ _ (by simp [hterm]) ?_
    simp [pollBody, hctx]
  · intro resp n hctx hok hmore hdone
    have hun := printBuildLogs_unroll env build resp n hctx hok hmore (fuel + 1)
    have hc := logStateAfter_counts resp n
    have ht := printBuildLogsFrom_timeout env build fuel (logStateAfter resp n)
      (logStateAfter_hasMoreText resp n hmore) (by rw [hc.1]; exact hdone)
    rw [hun, ht]
    refine ⟨rfl, rfl, ?_⟩
    simp only []
    rw [fetchOffsets_append, fetchOffsets_logEventsUpTo]
    simp [fetchOffsets]

/-- Witness of C7: the deadline expires before the third pass of the log
streamer, after two requests. -/
theorem observer_loops_time_out_witness :
    (printBuildLogs expiringEnv 5 freshBuild).2.2 = some (some TIMED_OUT_ERROR)
      ∧ (printBuildLogs expiringEnv 5 freshBuild).1
        = logEventsUpTo demoResp 2 ++ [Event.write "plugin timeout occured\n".toList]
      ∧ (fetchOffsets (printBuildLogs expiringEnv 5 freshBuild).1).length = 2 :=
  (observer_loops_time_out (requestOf "" "") expiringEnv freshBuild 2).2.2 demoResp 2
    (by decide)
    (fun i _ => by unfold expiringEnv demoEnv demoResp; dsimp only; split_ifs <;> rfl)
    (by decide) (by decide)

/-- C5 at the failing input: the build has no result on entry, the deadline never
expires, the first poll is free of error and leaves the result empty (the build
is still running), and the second poll would report `SUCCESS`.  `pollBuildStatus`
returns `nil` after one sleep and one poll, with a result that is not terminal;
the second poll is never made, whatever the fuel. -/
theorem pollBuildStatus_returns_after_first_poll (fuel : Nat) :
    pollBuildStatus (requestOf "" "") demoEnv (fuel + 1) freshBuild
        = ([Event.sleep 60000000000, Event.poll 1],
            { build := freshBuild, selects := 1, polls := 1 }, some none)
      ∧ isTerminalStatus
          (pollBuildStatus (requestOf "" "") demoEnv (fuel + 1) freshBuild).2.1.build.Raw.Result
        = false
      ∧ isTerminalStatus (demoEnv.poll 1 freshBuild).1.Raw.Result = true := by
  have h : pollBuildStatus (requestOf "" "") demoEnv (fuel + 1) freshBuild
      = ([Event.sleep 60000000000, Event.poll 1],
          { build := freshBuild, selects := 1, polls := 1 }, some none) := by
    unfold pollBuildStatus pollBuildStatusFrom
    exact forLoop_succ_ret _ _ _ _ _ _ _ _ (by decide) (by decide)
  refine ⟨h, ?_, by decide⟩
  rw [h]
  decide

/-- The status poller never makes a second pass: whenever it returns, it has made
at most one poll. -/
theorem pollBuildStatus_polls_at_most_once (req : JenkinsPluginInputVariables)
    (env : ObserverEnv) (fuel : Nat) (build : Build) :
    (pollBuildStatus req env fuel build).2.1.polls ≤ 1 := by
  unfold pollBuildStatus pollBuildStatusFrom
  by_cases hc : isTerminalStatus build.Raw.Result = true
  · rw [forLoop_of_cond_false _ _ _ _ _ (by simp [hc])]
    exact Nat.zero_le _
  · cases fuel with
    | zero =>
      rw [forLoop_zero _ _ _ _ (by simpa using hc)]
      exact Nat.zero_le _
    | succ fuel =>
      rw [forLoop]
      simp only [hc, Bool.not_eq_true, Bool.not_eq_true'] 
      by_cases hd : env.ctxDone 0 = true
      · simp [pollBody, hd, hc]
      · cases hp : (env.poll 0 build).2 <;> simp [pollBody, hd, hc, hp]

/-- The status poller makes no pass when the result is terminal on entry: it
returns `nil` at once, without any action. -/
theorem pollBuildStatus_terminal_on_entry (req : JenkinsPluginInputVariables)
    (env : ObserverEnv) (fuel : Nat) (build : Build)
    (h : isTerminalStatus build.Raw.Result = true) :
    pollBuildStatus req env fuel build
      = ([], { build := build, selects := 0, polls := 0 }, some none) := by
  unfold pollBuildStatus pollBuildStatusFrom
  exact forLoop_of_cond_false _ _ _ _ _ (by simp [h])

theorem doPrintf_of_no_percent (fuel : Nat) (s : Str) (hfuel : s.length < fuel)
    (h : '%' ∉ s) : doPrintf fuel s = s := by
  induction s generalizing fuel with
  | nil =>
    cases fuel with
    | zero => rfl
    | succ fuel => rfl
  | cons c cs ih =>
    cases fuel with
    | zero => exact absurd hfuel (Nat.not_lt_zero _)
    | succ fuel =>
      simp only [List.mem_cons, not_or] at h
      have hc : c ≠ '%' := fun hh => h.1 hh.symm
      have hlen : cs.length < fuel := by
        simp only [List.length_cons] at hfuel
        omega
      rw [doPrintf, if_neg hc, ih fuel hlen h.2]

/-- A text without `%` is written by `fmt.Printf` as it is. -/
theorem fmtPrintf_of_no_percent (s : Str) (h : '%' ∉ s) : fmtPrintf s = s :=
  doPrintf_of_no_percent _ s (Nat.lt_succ_self _) h

/-- C10 at the failing input: the console holds the single chunk `100%`.
`printBuildLogs` passes it to `fmt.Printf` as the format, and what is written is
`100%!(NOVERB)`, not the content. -/
theorem printBuildLogs_percent_is_formatted :
    printBuildLogs percentEnv 3 freshBuild
        = ([Event.getConsoleOutputFromIndex 0, Event.write "100%!(NOVERB)".toList],
            { startIndex := 4, hasMoreText := false, selects := 1, fetches := 1 }, some none)
      ∧ writes (printBuildLogs percentEnv 3 freshBuild).1 ≠ ["100%".toList] := by
  decide

/-- C8: what `main` does with the outcome `(queueId, err)` of the trigger call.
With `queueId = 0` and no error it exits with code 0, having written nothing and
resolved nothing.  With an error, whatever `queueId` is, it panics with that
error and never resolves the build.  The build is resolved from the queue
identifier exactly when there is no error and `queueId` is not zero, and only
then can the run go on to the observer loops. -/
theorem main_trigger_outcome (getBuildFromQueueID : Int → Except Str Build)
    (queueId : Int) (err : Option Str) :
    (queueId = 0 ∧ err = none →
        mainAfterTrigger getBuildFromQueueID queueId err = ([], Outcome.exit 0))
      ∧ (∀ e, err = some e →
        (mainAfterTrigger getBuildFromQueueID queueId err).2 = Outcome.panic e
        ∧ ∀ q, Event.getBuildFromQueueID q ∉ (mainAfterTrigger getBuildFromQueueID queueId err).1)
      ∧ (Event.getBuildFromQueueID queueId ∈ (mainAfterTrigger getBuildFromQueueID queueId err).1
          ↔ err = none ∧ queueId ≠ 0)
      ∧ (∀ build, (mainAfterTrigger getBuildFromQueueID queueId err).2 = Outcome.observe build →
          err = none ∧ queueId ≠ 0 ∧ getBuildFromQueueID queueId = Except.ok build)
      ∧ (err = none ∧ queueId ≠ 0 →
          ∀ build, getBuildFromQueueID queueId = Except.ok build →
            (mainAfterTrigger getBuildFromQueueID queueId err).2 = Outcome.observe build) := by
  cases err with
  | some e =>
    refine ⟨fun h => absurd h.2 (by simp), ?_, ?_, ?_, fun h => absurd h.1 (by simp)⟩
    · intro e' he
      cases he
      simp [mainAfterTrigger]
    · simp [mainAfterTrigger]
    · simp [mainAfterTrigger]
  | none =>
    by_cases hq : queueId = 0
    · subst hq
      simp [mainAfterTrigger]
    · cases hb : getBuildFromQueueID queueId with
      | error e => simp [mainAfterTrigger, hq, hb]
      | ok b => simp [mainAfterTrigger, hq, hb]

/-- Witness of C8: queue identifier 0 without error exits with code 0; an error
panics; queue identifier 12 without error resolves the build. -/
theorem main_trigger_outcome_witness :
    mainAfterTrigger demoQueue 0 none = ([], Outcome.exit 0)
      ∧ (mainAfterTrigger demoQueue 0 (some "refused".toList)).2 = Outcome.panic "refused".toList
      ∧ (mainAfterTrigger demoQueue 12 none).2 = Outcome.observe freshBuild :=
  ⟨(main_trigger_outcome demoQueue 0 none).1 ⟨rfl, rfl⟩,
   ((main_trigger_outcome demoQueue 0 (some "refused".toList)).2.1 "refused".toList rfl).1,
   (main_trigger_outcome demoQueue 12 none).2.2.2.2 ⟨rfl, by decide⟩ freshBuild rfl⟩

end JenkinsPlugin
